import Mathlib

/-!
# RESP client core of `libpcp_web` (`redis.h`)

A shallow embedding of the declarations, constants, hook macros and the inline
`refreshTimeout` of `src/libpcp_web/src/redis.h`, followed by the properties
established about them.  The header only declares the protocol reader and the
async entry points; their behaviour is modelled from the specification, and
every definition of that model says so in its documentation.

Conventions of the embedding:

* C `int` constants are `Int`; bit masks of the `flags` word are `Nat` and the
  word itself is a 32-bit quantity (`~A` is the complement within 32 bits);
* a data pointer (`void *`) is `Option Nat`, `none` being `NULL`; a function
  pointer is `Option Nat`, the number standing for the address of the callee;
* calling through a hook pointer is an externally visible event: operations
  return the new context together with the list of hook calls they made, in
  program order.  The callee lives in the host event loop and receives only
  `ev.data` (and the `struct timeval` by value), never the context itself.
-/

namespace Redis

/-! ## Status codes and error kinds (`redis.h` lines 45-59) -/

def REDIS_ERR : Int := -1
def REDIS_OK : Int := 0

def REDIS_ERR_IO : Int := 1
def REDIS_ERR_EOF : Int := 3
def REDIS_ERR_PROTOCOL : Int := 4
def REDIS_ERR_OOM : Int := 5
def REDIS_ERR_TIMEOUT : Int := 6
def REDIS_ERR_OTHER : Int := 2

/-- The six error kinds named by the `REDIS_ERR_*` macros. -/
inductive ErrKind where
  | ioFailure
  | endOfFile
  | protocol
  | outOfMemory
  | timeout
  | other
  deriving DecidableEq

/-- The code stored in an `err` field for each kind. -/
def ErrKind.code : ErrKind → Int
  | .ioFailure => REDIS_ERR_IO
  | .endOfFile => REDIS_ERR_EOF
  | .protocol => REDIS_ERR_PROTOCOL
  | .outOfMemory => REDIS_ERR_OOM
  | .timeout => REDIS_ERR_TIMEOUT
  | .other => REDIS_ERR_OTHER

/-! ## Reply type tags (`redis.h` lines 71-87) -/

/-- The enumerators of `enum redisReplyType`, by name. -/
inductive redisReplyType where
  | REDIS_REPLY_STRING
  | REDIS_REPLY_ARRAY
  | REDIS_REPLY_INTEGER
  | REDIS_REPLY_NIL
  | REDIS_REPLY_STATUS
  | REDIS_REPLY_ERROR
  | REDIS_REPLY_DOUBLE
  | REDIS_REPLY_BOOL
  | REDIS_REPLY_VERB
  | REDIS_REPLY_MAP
  | REDIS_REPLY_SET
  | REDIS_REPLY_ATTR
  | REDIS_REPLY_PUSH
  | REDIS_REPLY_BIGNUM
  | REDIS_REPLY_UNKNOWN
  deriving DecidableEq

open redisReplyType

/-- The integer value the header assigns to each enumerator. -/
def redisReplyType.tag : redisReplyType → Int
  | REDIS_REPLY_STRING => 1
  | REDIS_REPLY_ARRAY => 2
  | REDIS_REPLY_INTEGER => 3
  | REDIS_REPLY_NIL => 4
  | REDIS_REPLY_STATUS => 5
  | REDIS_REPLY_ERROR => 6
  | REDIS_REPLY_DOUBLE => 7
  | REDIS_REPLY_BOOL => 8
  | REDIS_REPLY_VERB => 9
  | REDIS_REPLY_MAP => 9
  | REDIS_REPLY_SET => 10
  | REDIS_REPLY_ATTR => 11
  | REDIS_REPLY_PUSH => 12
  | REDIS_REPLY_BIGNUM => 13
  | REDIS_REPLY_UNKNOWN => -1

/-- The fourteen named reply variants, in the order of the header. -/
def namedReplyTypes : List redisReplyType :=
  [REDIS_REPLY_STRING, REDIS_REPLY_ARRAY, REDIS_REPLY_INTEGER, REDIS_REPLY_NIL,
   REDIS_REPLY_STATUS, REDIS_REPLY_ERROR, REDIS_REPLY_DOUBLE, REDIS_REPLY_BOOL,
   REDIS_REPLY_VERB, REDIS_REPLY_MAP, REDIS_REPLY_SET, REDIS_REPLY_ATTR,
   REDIS_REPLY_PUSH, REDIS_REPLY_BIGNUM]

/-! ## Connection flags (`redis.h` lines 137-171) -/

def REDIS_BLOCK : Nat := 0x1
def REDIS_CONNECTED : Nat := 0x2
def REDIS_DISCONNECTING : Nat := 0x4
def REDIS_FREEING : Nat := 0x8
def REDIS_IN_CALLBACK : Nat := 0x10
def REDIS_SUBSCRIBED : Nat := 0x20
def REDIS_MONITORING : Nat := 0x40
def REDIS_REUSEADDR : Nat := 0x80
def REDIS_SSL : Nat := 0x100
def REDIS_NO_AUTO_FREE : Nat := 0x200

/-- The ten flag macros, by name. -/
inductive Flag where
  | block
  | connected
  | disconnecting
  | freeing
  | inCallback
  | subscribed
  | monitoring
  | reuseaddr
  | ssl
  | noAutoFree
  deriving DecidableEq

/-- The mask each flag macro expands to. -/
def Flag.mask : Flag → Nat
  | .block => REDIS_BLOCK
  | .connected => REDIS_CONNECTED
  | .disconnecting => REDIS_DISCONNECTING
  | .freeing => REDIS_FREEING
  | .inCallback => REDIS_IN_CALLBACK
  | .subscribed => REDIS_SUBSCRIBED
  | .monitoring => REDIS_MONITORING
  | .reuseaddr => REDIS_REUSEADDR
  | .ssl => REDIS_SSL
  | .noAutoFree => REDIS_NO_AUTO_FREE

/-- Position of the single bit of each flag within the `flags` word. -/
def Flag.bit : Flag → Nat
  | .block => 0
  | .connected => 1
  | .disconnecting => 2
  | .freeing => 3
  | .inCallback => 4
  | .subscribed => 5
  | .monitoring => 6
  | .reuseaddr => 7
  | .ssl => 8
  | .noAutoFree => 9

/-- The C expression `f | A` on the flags word. -/
def setFlag (f A : Nat) : Nat := f ||| A

/-- The C expression `f & ~A` on the 32-bit flags word. -/
def clearFlag (f A : Nat) : Nat := f &&& (0xFFFFFFFF ^^^ A)

/-! ## The async context and its event-loop hooks (`redis.h` lines 263-445) -/

/-- The two fields of `struct timeval`. -/
structure timeval where
  tv_sec : Int
  tv_usec : Int
  deriving DecidableEq

/-- One entry of the singly linked callback list (`redisCallBack`); the `next`
link is the list structure itself. -/
structure redisCallBack where
  func : Option Nat
  pending_subs : Nat
  command : List Nat
  privdata : Option Nat
  deriving DecidableEq

/-- The fields of `redisContext` that the header's inline code reads. -/
structure redisContext where
  err : Int
  fd : Int
  flags : Nat
  obuf : List Nat
  timeout : Option timeval
  deriving DecidableEq

/-- The anonymous `ev` struct of `redisAsyncContext`. -/
structure EvHooks where
  data : Option Nat
  addRead : Option Nat
  delRead : Option Nat
  addWrite : Option Nat
  delWrite : Option Nat
  cleanup : Option Nat
  scheduleTimer : Option Nat
  deriving DecidableEq

/-- The anonymous `sub` struct of `redisAsyncContext`; a `struct dict` is an
association list from channel or pattern name to its callback entry. -/
structure SubCallBacks where
  invalid : List redisCallBack
  channels : List (List Nat × redisCallBack)
  patterns : List (List Nat × redisCallBack)
  deriving DecidableEq

structure redisAsyncContext where
  c : redisContext
  err : Int
  data : Option Nat
  ev : EvHooks
  onDisconnect : Option Nat
  onConnect : Option Nat
  replies : List redisCallBack
  sub : SubCallBacks
  deriving DecidableEq

/-- A call made through one of the hook pointers: the callee and its arguments. -/
inductive HookCall where
  | plain (fn : Nat) (data : Option Nat)
  | timer (fn : Nat) (data : Option Nat) (tv : timeval)
  deriving DecidableEq

/-- Whether a hook call went through a `void (*)(void *, struct timeval)` pointer. -/
def HookCall.isTimer : HookCall → Bool
  | .plain _ _ => false
  | .timer _ _ _ => true

/-- `static inline void refreshTimeout(redisAsyncContext *ctx)`, lines 440-445. -/
def refreshTimeout (ctx : redisAsyncContext) : redisAsyncContext × List HookCall :=
  match ctx.c.timeout, ctx.ev.scheduleTimer with
  | some tv, some f =>
    if tv.tv_sec ≠ 0 ∨ tv.tv_usec ≠ 0 then
      (ctx, [HookCall.timer f ctx.ev.data tv])
    else
      (ctx, [])
  | _, _ => (ctx, [])

/-- `REDIS_EV_ADD_READ(ctx)`, lines 424-426. -/
def REDIS_EV_ADD_READ (ctx : redisAsyncContext) : redisAsyncContext × List HookCall :=
  let r := refreshTimeout ctx
  match r.1.ev.addRead with
  | some f => (r.1, r.2 ++ [HookCall.plain f r.1.ev.data])
  | none => r

/-- `REDIS_EV_DEL_READ(ctx)`, lines 427-429. -/
def REDIS_EV_DEL_READ (ctx : redisAsyncContext) : redisAsyncContext × List HookCall :=
  match ctx.ev.delRead with
  | some f => (ctx, [HookCall.plain f ctx.ev.data])
  | none => (ctx, [])

/-- `REDIS_EV_ADD_WRITE(ctx)`, lines 430-432. -/
def REDIS_EV_ADD_WRITE (ctx : redisAsyncContext) : redisAsyncContext × List HookCall :=
  let r := refreshTimeout ctx
  match r.1.ev.addWrite with
  | some f => (r.1, r.2 ++ [HookCall.plain f r.1.ev.data])
  | none => r

/-- `REDIS_EV_DEL_WRITE(ctx)`, lines 433-435. -/
def REDIS_EV_DEL_WRITE (ctx : redisAsyncContext) : redisAsyncContext × List HookCall :=
  match ctx.ev.delWrite with
  | some f => (ctx, [HookCall.plain f ctx.ev.data])
  | none => (ctx, [])

/-- `REDIS_EV_CLEANUP(ctx)`, lines 436-438. -/
def REDIS_EV_CLEANUP (ctx : redisAsyncContext) : redisAsyncContext × List HookCall :=
  match ctx.ev.cleanup with
  | some f =>
    ({ ctx with ev := { ctx.ev with data := none } }, [HookCall.plain f ctx.ev.data])
  | none => (ctx, [])

/-! ## Reply values (`redis.h` lines 180-188) -/

/-- The reply tree `struct redisReply`: `type`, `integer`, `str` and `element`.
The `len` and `elements` fields are the lengths of `str` and `element`; the
text of a double is kept in `str` and `dval` is not represented. -/
inductive redisReply where
  | mk (type : redisReplyType) (integer : Int) (str : List Nat) (element : List redisReply)

/-! ## The protocol reader (`redis.h` lines 89-131)

The header declares the reader's state (`redisReader`, `redisReadTask`) and its
entry points; the bodies of `redisReaderFeed` and `redisReaderGetReply` are not
part of the header and are modelled from the specification (section 4.2).
Bytes are natural numbers; the parse-task stack `rstack[0..ridx]` is a list
whose head is the current task `rstack[ridx]` and in which the parent of a
task is the next entry. -/

def REDIS_READER_MAX_BUF : Nat := 1024 * 16

/-- Number of frames of `rstack` in `redisReader` (`rstack[9]`). -/
def REDIS_READER_STACK_SIZE : Nat := 9

/-- `struct redisReadTask`; `parent` is the next entry of the stack and
`privdata` is not represented. -/
structure redisReadTask where
  type : redisReplyType
  elements : Int
  idx : Int
  obj : Option redisReply

/-- `struct redisReader` without the factory table and `privdata`; `len` is
the length of `buf` and `ridx` is the length of `rstack` minus one. -/
structure redisReader where
  err : Int
  errstr : String
  buf : List Nat
  pos : Nat
  maxbuf : Nat
  rstack : List redisReadTask
  reply : Option redisReply

/-- The field `ridx`, the index of the current task, -1 when there is none. -/
def redisReader.ridx (r : redisReader) : Int := (r.rstack.length : Int) - 1

/-- Modelled from the spec: the default reply factory (section 4.1), one
constructor function per kind of value, building `redisReply` trees. -/
def createString (t : redisReplyType) (s : List Nat) : redisReply := .mk t 0 s []

/-- Modelled from the spec: the factory function for containers; children are
attached as they complete. -/
def createArray (t : redisReplyType) : redisReply := .mk t 0 [] []

/-- Modelled from the spec: the factory function for integers. -/
def createInteger (n : Int) : redisReply := .mk REDIS_REPLY_INTEGER n [] []

/-- Modelled from the spec: the factory function for doubles, keeping the
formatted text. -/
def createDouble (text : List Nat) : redisReply := .mk REDIS_REPLY_DOUBLE 0 text []

/-- Modelled from the spec: the factory function for the Nil variant. -/
def createNil : redisReply := .mk REDIS_REPLY_NIL 0 [] []

/-- Modelled from the spec: the factory function for booleans. -/
def createBool (b : Bool) : redisReply := .mk REDIS_REPLY_BOOL (if b then 1 else 0) [] []

/-- Modelled from the spec: the one-byte type marker of a RESP token
(section 4.2); a byte that is no marker is a protocol error. -/
def markerType (b : Nat) : Option redisReplyType :=
  if b = 43 then some REDIS_REPLY_STATUS
  else if b = 45 then some REDIS_REPLY_ERROR
  else if b = 58 then some REDIS_REPLY_INTEGER
  else if b = 36 then some REDIS_REPLY_STRING
  else if b = 42 then some REDIS_REPLY_ARRAY
  else if b = 44 then some REDIS_REPLY_DOUBLE
  else if b = 35 then some REDIS_REPLY_BOOL
  else if b = 61 then some REDIS_REPLY_VERB
  else if b = 37 then some REDIS_REPLY_MAP
  else if b = 126 then some REDIS_REPLY_SET
  else if b = 124 then some REDIS_REPLY_ATTR
  else if b = 62 then some REDIS_REPLY_PUSH
  else if b = 40 then some REDIS_REPLY_BIGNUM
  else if b = 95 then some REDIS_REPLY_NIL
  else none

/-- Modelled from the spec: the search for the line terminator, missing with
the reader's body; the index of the first carriage-return/line-feed pair. -/
def seekNewline : List Nat → Option Nat
  | [] => none
  | [_] => none
  | a :: b :: rest =>
    if a = 13 ∧ b = 10 then some 0 else (seekNewline (b :: rest)).map (fun n => n + 1)

/-- Outcome of reading one line. -/
inductive LineResult where
  | line (content : List Nat) (used : Nat)
  | needMore
  | tooLong

/-- Modelled from the spec: read the line that ends at the first
carriage-return/line-feed pair.  The scan gives up when no terminator starts
within the first `lim + 1` bytes (the structural limit on a line, for which the
specification names no value); a bare line feed is not a terminator. -/
def readLine (lim : Nat) (input : List Nat) : LineResult :=
  match seekNewline input with
  | some n => if n ≤ lim then .line (input.take n) (n + 2) else .tooLong
  | none => if lim + 2 ≤ input.length then .tooLong else .needMore

/-- Modelled from the spec: whether a byte is a decimal digit (part of the
missing textual-to-value conversion). -/
def isDigit (b : Nat) : Bool := decide (48 ≤ b) && decide (b ≤ 57)

/-- Modelled from the spec: the value of a string of decimal digits, most
significant first (part of the missing textual-to-value conversion). -/
def digitsValue : List Nat → Nat → Option Nat
  | [], acc => some acc
  | d :: ds, acc => if isDigit d then digitsValue ds (acc * 10 + (d - 48)) else none

/-- Modelled from the spec: textual-to-value conversion of a 64-bit signed
integer (an optional minus sign and at least one decimal digit). -/
def string2ll (s : List Nat) : Option Int :=
  if s.head? = some 45 then
    if s.tail = [] then none
    else (digitsValue s.tail 0).bind (fun n => if n ≤ 2 ^ 63 then some (-(n : Int)) else none)
  else
    if s = [] then none
    else (digitsValue s 0).bind (fun n => if n < 2 ^ 63 then some (n : Int) else none)

/-- Modelled from the spec: drop one leading plus or minus sign (part of the
missing textual-to-value conversion). -/
def dropSign (s : List Nat) : List Nat :=
  if s.head? = some 43 ∨ s.head? = some 45 then s.tail else s

/-- Modelled from the spec: a non-empty string of decimal digits (part of the
missing textual-to-value conversion). -/
def allDigits (s : List Nat) : Bool := !s.isEmpty && s.all isDigit

/-- Modelled from the spec: well-formed text of a double: `inf`, `-inf`,
`nan`, or a signed decimal with an optional fraction and an optional
exponent. -/
def isDoubleText (s : List Nat) : Bool :=
  if s = [105, 110, 102] ∨ s = [45, 105, 110, 102] ∨ s = [110, 97, 110] then true
  else
    let body := dropSign s
    let mant := body.takeWhile (fun b => b ≠ 101 ∧ b ≠ 69)
    let rest := body.dropWhile (fun b => b ≠ 101 ∧ b ≠ 69)
    let ip := mant.takeWhile (fun b => b ≠ 46)
    let fp := mant.dropWhile (fun b => b ≠ 46)
    allDigits ip && (fp.isEmpty || allDigits fp.tail) &&
      (rest.isEmpty || allDigits (dropSign rest.tail))

/-- Modelled from the spec: the value of a line-type token, `none` on
malformed text. -/
def lineValue (t : redisReplyType) (l : List Nat) : Option redisReply :=
  match t with
  | REDIS_REPLY_INTEGER => (string2ll l).map createInteger
  | REDIS_REPLY_DOUBLE => if isDoubleText l then some (createDouble l) else none
  | REDIS_REPLY_NIL => if l = [] then some createNil else none
  | REDIS_REPLY_BOOL =>
    if l = [116] then some (createBool true)
    else if l = [102] then some (createBool false) else none
  | REDIS_REPLY_BIGNUM => if allDigits (dropSign l) then some (createString t l) else none
  | _ => some (createString t l)

/-- Modelled from the spec: attach a finished child to the container under
construction; children complete in index order, so the child with index `idx`
becomes element `idx`. -/
def attachChild (v : Option redisReply) : Option redisReply → Option redisReply
  | some (.mk t i s el) =>
    (match v with
     | some c => some (.mk t i s (el ++ [c]))
     | none => some (.mk t i s el))
  | none => none

/-- What the stack looks like after a task has completed. -/
inductive Progress where
  | next (stack : List redisReadTask)
  | finished (reply : Option redisReply)

/-- Modelled from the spec: on completing a task, pop it and attach its value
into the parent container (or hand the root value to the caller); a parent
that has received its last element completes in turn, otherwise the task for
its next element becomes the current one. -/
def moveToNextTask (v : Option redisReply) (cur : redisReadTask) :
    List redisReadTask → Progress
  | [] => .finished v
  | prv :: rest =>
    let prv1 := { prv with obj := attachChild v prv.obj }
    if cur.idx + 1 = prv.elements then
      moveToNextTask prv1.obj prv1 rest
    else
      .next ({ type := REDIS_REPLY_UNKNOWN, elements := -1, idx := cur.idx + 1,
               obj := none } :: prv1 :: rest)

/-- Outcome of processing the item at the top of the stack. -/
inductive ItemResult where
  | ok (p : Progress) (used : Nat)
  | needMore
  | fail (code : Int) (msg : String)

/-- Modelled from the spec: a line-type scalar (status, error, integer,
double, boolean, big number, nil) is parsed fully or not at all. -/
def processLineItem (lim : Nat) (cur : redisReadTask) (parents : List redisReadTask)
    (input : List Nat) : ItemResult :=
  match readLine lim input with
  | .needMore => .needMore
  | .tooLong => .fail REDIS_ERR_PROTOCOL "Line too long"
  | .line l used =>
    match lineValue cur.type l with
    | none => .fail REDIS_ERR_PROTOCOL "Bad value"
    | some v => .ok (moveToNextTask (some v) cur parents) used

/-- Modelled from the spec: a bulk-type token is a length line followed by a
payload of that length and its own terminator; length -1 is the Nil variant
and any other negative length is a protocol error. -/
def processBulkItem (lim : Nat) (cur : redisReadTask) (parents : List redisReadTask)
    (input : List Nat) : ItemResult :=
  match readLine lim input with
  | .needMore => .needMore
  | .tooLong => .fail REDIS_ERR_PROTOCOL "Line too long"
  | .line l used =>
    match string2ll l with
    | none => .fail REDIS_ERR_PROTOCOL "Bad bulk string length"
    | some n =>
      if n < -1 then .fail REDIS_ERR_PROTOCOL "Bulk string length out of range"
      else if n = -1 then .ok (moveToNextTask (some createNil) cur parents) used
      else if input.length < used + n.toNat + 2 then .needMore
      else if (input.drop (used + n.toNat)).take 2 = [13, 10] then
        .ok (moveToNextTask (some (createString cur.type ((input.drop used).take n.toNat)))
              cur parents) (used + n.toNat + 2)
      else .fail REDIS_ERR_PROTOCOL "Bad bulk string terminator"

/-- Modelled from the spec: a container token is a count line followed by that
many child tokens; count -1 is the Nil variant, count 0 completes at once, and
a positive count pushes the task of the first element unless the stack of
`cap` frames is full, which is a protocol error.  The count must fit the `int`
field `elements`. -/
def processAggregateItem (cap lim : Nat) (cur : redisReadTask)
    (parents : List redisReadTask) (input : List Nat) : ItemResult :=
  match readLine lim input with
  | .needMore => .needMore
  | .tooLong => .fail REDIS_ERR_PROTOCOL "Line too long"
  | .line l used =>
    match string2ll l with
    | none => .fail REDIS_ERR_PROTOCOL "Bad multi-bulk length"
    | some n =>
      if n < -1 ∨ 2 ^ 31 - 1 < n then
        .fail REDIS_ERR_PROTOCOL "Multi-bulk length out of range"
      else if n = -1 then .ok (moveToNextTask (some createNil) cur parents) used
      else if n = 0 then
        .ok (moveToNextTask (some (createArray cur.type)) cur parents) used
      else if cap ≤ parents.length + 1 then
        .fail REDIS_ERR_PROTOCOL "No support for deeper nesting of multi bulk replies"
      else
        .ok (.next ({ type := REDIS_REPLY_UNKNOWN, elements := -1, idx := 0, obj := none } ::
              { cur with elements := n, obj := some (createArray cur.type) } :: parents)) used

/-- Modelled from the spec: inspect the task at the top of the stack.  A task
whose type is not known yet reads the type marker; a scalar task is parsed
fully or reports that more data is needed; a container task reads its count. -/
def processItem (cap lim : Nat) (stack : List redisReadTask) (input : List Nat) :
    ItemResult :=
  match stack with
  | [] => .needMore
  | cur :: parents =>
    match cur.type with
    | REDIS_REPLY_UNKNOWN =>
      (match input with
       | [] => .needMore
       | b :: _ =>
         match markerType b with
         | some t => .ok (.next ({ cur with type := t } :: parents)) 1
         | none => .fail REDIS_ERR_PROTOCOL "Protocol error, bad reply type byte")
    | REDIS_REPLY_STRING => processBulkItem lim cur parents input
    | REDIS_REPLY_VERB => processBulkItem lim cur parents input
    | REDIS_REPLY_ARRAY => processAggregateItem cap lim cur parents input
    | REDIS_REPLY_MAP => processAggregateItem cap lim cur parents input
    | REDIS_REPLY_SET => processAggregateItem cap lim cur parents input
    | REDIS_REPLY_ATTR => processAggregateItem cap lim cur parents input
    | REDIS_REPLY_PUSH => processAggregateItem cap lim cur parents input
    | _ => processLineItem lim cur parents input

/-- How the item loop of one `redisReaderGetReply` call ended. -/
inductive LoopResult where
  | complete (reply : Option redisReply) (used : Nat)
  | incomplete (stack : List redisReadTask) (used : Nat)
  | failed (code : Int) (msg : String)
  | outOfFuel

/-- Modelled from the spec: process items until the root task completes, more
data is needed, or a protocol error is found.  `used` counts the bytes consumed
so far; the loop is bounded by `fuel`, and every item consumes at least one
byte. -/
def processItems (cap lim : Nat) : Nat → List redisReadTask → List Nat → Nat → LoopResult
  | 0, _, _, _ => .outOfFuel
  | fuel + 1, stack, input, used =>
    match processItem cap lim stack input with
    | .ok (.finished v) n => .complete v (used + n)
    | .ok (.next stack1) n => processItems cap lim fuel stack1 (input.drop n) (used + n)
    | .needMore => .incomplete stack used
    | .fail code msg => .failed code msg

/-- Add `k` to the count of consumed bytes of a loop result. -/
def LoopResult.addUsed (k : Nat) : LoopResult → LoopResult
  | .complete v u => .complete v (u + k)
  | .incomplete stack u => .incomplete stack (u + k)
  | .failed code msg => .failed code msg
  | .outOfFuel => .outOfFuel

/-- Modelled from the spec: the root task a reader starts a new reply with. -/
def rootTask : redisReadTask :=
  { type := REDIS_REPLY_UNKNOWN, elements := -1, idx := -1, obj := none }

/-- Modelled from the spec: the state `redisReaderCreate` returns, an idle
reader (no error, empty buffer, no reply in progress), with high-water mark
`maxbuf` set to `m`. -/
def idleReader (m : Nat) : redisReader :=
  { err := 0, errstr := "", buf := [], pos := 0, maxbuf := m, rstack := [], reply := none }

/-- Modelled from the spec: `redisReaderCreate`, an idle reader with the
default high-water mark. -/
def redisReaderCreate : redisReader := idleReader REDIS_READER_MAX_BUF

/-- Modelled from the spec: `redisReaderFeed` appends the bytes to the buffer
and never parses.  Lists are unbounded, so the append always succeeds and the
out-of-memory failure does not arise. -/
def redisReaderFeed (r : redisReader) (bytes : List Nat) : Int × redisReader :=
  (REDIS_OK, { r with buf := r.buf ++ bytes })

/-- Modelled from the spec: discard the consumed bytes once the cursor has
passed the high-water mark. -/
def compact (r : redisReader) : redisReader :=
  if r.maxbuf < r.pos then { r with buf := r.buf.drop r.pos, pos := 0 } else r

/-- The bytes of the buffer that have not been consumed yet. -/
def redisReader.unread (r : redisReader) : List Nat := r.buf.drop r.pos

/-- Modelled from the spec: the stack a call of `redisReaderGetReply` works on,
the saved one, or a fresh root task when no reply is in progress. -/
def currentStack (r : redisReader) : List redisReadTask :=
  if r.rstack.isEmpty then [rootTask] else r.rstack

/-- Modelled from the spec: `redisReaderGetReply` with a stack of `cap` frames
and line limit `lim`.  The result is the status, the reply (`none` for NULL)
and the reader afterwards.  A reader in error refuses to parse; otherwise the
unconsumed bytes are processed from the saved stack. -/
def getReplyWith (cap lim : Nat) (r : redisReader) : Int × Option redisReply × redisReader :=
  if r.err ≠ 0 then (REDIS_ERR, none, r)
  else
    let input := r.unread
    match processItems cap lim (input.length + 1) (currentStack r) input 0 with
    | .complete v used =>
      (REDIS_OK, v, compact { r with pos := r.pos + used, rstack := [], reply := none })
    | .incomplete stack used =>
      (REDIS_OK, none, compact { r with pos := r.pos + used, rstack := stack })
    | .failed code msg => (REDIS_ERR, none, { r with err := code, errstr := msg })
    | .outOfFuel => (REDIS_OK, none, r)

/-- Modelled from the spec: `redisReaderGetReply` on the reader of the header,
whose stack has `REDIS_READER_STACK_SIZE` frames. -/
def redisReaderGetReply (lim : Nat) (r : redisReader) : Int × Option redisReply × redisReader :=
  getReplyWith REDIS_READER_STACK_SIZE lim r

/-- Feed the chunks one by one, calling `redisReaderGetReply` after each, up to
the first call that returns a reply or an error. -/
def feedChunks (lim : Nat) (r : redisReader) :
    List (List Nat) → Int × Option redisReply × redisReader
  | [] => (REDIS_OK, none, r)
  | chunk :: rest =>
    let res := redisReaderGetReply lim (redisReaderFeed r chunk).2
    if res.1 = REDIS_OK ∧ res.2.1.isNone then feedChunks lim res.2.2 rest else res

/-- Whether the item loop with a stack of `cap` frames ever holds more than
`d` frames. -/
def reachesDepth (cap lim d : Nat) : Nat → List redisReadTask → List Nat → Bool
  | 0, _, _ => false
  | fuel + 1, stack, input =>
    if d < stack.length then true
    else
      match processItem cap lim stack input with
      | .ok (.next stack1) n => reachesDepth cap lim d fuel stack1 (input.drop n)
      | _ => false

/-- The bytes of a string literal. -/
def bytes (s : String) : List Nat := s.toList.map Char.toNat

/-! ## The async correlation engine (`redis.h` lines 346-422)

The header declares `redisAsyncFormattedCommand`, `redisAsyncHandleRead` and
`redisProcessCallBacks`; their bodies are not part of the header and are
modelled from the specification (section 4.4). -/

/-- What a reply callback is called with besides the context and the reply:
the function, the copy of the command, and the caller's private data. -/
abbrev CallBackId := Option Nat × List Nat × Option Nat

def redisCallBack.ident (cb : redisCallBack) : CallBackId :=
  (cb.func, cb.command, cb.privdata)

/-- One call of a reply callback; `routed` tells a subscription push that was
delivered through the channel and pattern tables from a reply that was
delivered from the head of the `replies` list. -/
structure Invocation where
  routed : Bool
  target : CallBackId
  reply : redisReply

/-- Modelled from the spec: `redisAsyncFormattedCommand` (submit).  It fails
without queueing anything when the connection is disconnecting or freeing;
otherwise it appends an entry at the tail of `replies`, appends the command to
the output buffer and asks for write readiness through `REDIS_EV_ADD_WRITE`.
`subs` is the number of pushes the command expects, which the missing code
derives from the command. -/
def redisAsyncFormattedCommand (ac : redisAsyncContext) (fn : Option Nat) (cmd : List Nat)
    (privdata : Option Nat) (subs : Nat) : Int × redisAsyncContext × List HookCall :=
  if ac.c.flags &&& (REDIS_DISCONNECTING ||| REDIS_FREEING) ≠ 0 then (REDIS_ERR, ac, [])
  else
    let cb : redisCallBack :=
      { func := fn, pending_subs := subs % 2 ^ 32, command := cmd, privdata := privdata }
    let r := REDIS_EV_ADD_WRITE
      { ac with replies := ac.replies ++ [cb], c := { ac.c with obuf := ac.c.obuf ++ cmd } }
    (REDIS_OK, r.1, r.2)

/-- Modelled from the spec: the name a push is routed by, the first element of
a Push variant. -/
def pushName : redisReply → Option (List Nat)
  | .mk REDIS_REPLY_PUSH _ _ (.mk _ _ name _ :: _) => some name
  | _ => none

/-- Modelled from the spec: the subscription entry of a push that names a known
channel or pattern. -/
def lookupSubscription (ac : redisAsyncContext) (reply : redisReply) : Option redisCallBack :=
  match pushName reply with
  | some name =>
    (match ac.sub.channels.lookup name with
     | some cb => some cb
     | none => ac.sub.patterns.lookup name)
  | none => none

/-- Modelled from the spec: the decrement of the `unsigned int` counter
`pending_subs` done by the missing delivery code. -/
def decrPending (n : Nat) : Nat := (n + (2 ^ 32 - 1)) % 2 ^ 32

/-- Modelled from the spec: delivery of one complete reply (the body of the
loop of `redisProcessCallBacks`).  A routed push goes to its subscription entry
and leaves `replies` alone; any other reply goes to the head of `replies`,
whose `unsigned int` counter `pending_subs` is decremented and which is retired
once the counter is zero. -/
def deliverReply (ac : redisAsyncContext) (reply : redisReply) :
    redisAsyncContext × List Invocation :=
  match lookupSubscription ac reply with
  | some cb => (ac, [{ routed := true, target := cb.ident, reply := reply }])
  | none =>
    match ac.replies with
    | [] => (ac, [])
    | cb :: rest =>
      let n := decrPending cb.pending_subs
      if n = 0 then
        ({ ac with replies := rest }, [{ routed := false, target := cb.ident, reply := reply }])
      else
        ({ ac with replies := { cb with pending_subs := n } :: rest },
          [{ routed := false, target := cb.ident, reply := reply }])

/-- What happens to an async context: a command is submitted, or a complete
reply arrives from the reader. -/
inductive AsyncEvent where
  | submit (fn : Option Nat) (cmd : List Nat) (privdata : Option Nat) (subs : Nat)
  | reply (r : redisReply)

/-- Run a sequence of events; the result is the context afterwards, the reply
callbacks invoked (in order) and the entries of the commands whose submission
returned `REDIS_OK` (in order, with the counter the caller asked for). -/
def asyncRun : redisAsyncContext → List AsyncEvent →
    redisAsyncContext × List Invocation × List redisCallBack
  | ac, [] => (ac, [], [])
  | ac, .submit fn cmd privdata subs :: evs =>
    let r := redisAsyncFormattedCommand ac fn cmd privdata subs
    let rest := asyncRun r.2.1 evs
    if r.1 = REDIS_OK then
      (rest.1, rest.2.1,
        { func := fn, pending_subs := subs, command := cmd, privdata := privdata } :: rest.2.2)
    else rest
  | ac, .reply rep :: evs =>
    let r := deliverReply ac rep
    let rest := asyncRun r.1 evs
    (rest.1, r.2 ++ rest.2.1, rest.2.2)

/-! ### What FIFO correlation asks for

The following definitions do not describe the engine; they say, from the
events alone, what the specification expects of it. -/

/-- The number of replies that an entry whose 32-bit counter is `n` is owed
before it is retired: `n` itself, and a full cycle of the counter when it
starts at zero. -/
def expectedReplies (n : Nat) : Nat :=
  if n % 4294967296 = 0 then 4294967296 else n % 4294967296

/-- The callbacks owed a reply, in the order in which they are owed: every
entry of the list in order, as often as it expects a reply. -/
def replySlots (q : List redisCallBack) : List CallBackId :=
  (q.map (fun cb => List.replicate (expectedReplies cb.pending_subs) cb.ident)).flatten

/-- The entries of the submissions among the events, in submission order. -/
def submittedEntries : List AsyncEvent → List redisCallBack
  | [] => []
  | .submit fn cmd privdata subs :: evs =>
    { func := fn, pending_subs := subs, command := cmd, privdata := privdata } ::
      submittedEntries evs
  | .reply _ :: evs => submittedEntries evs

/-- The replies that answer a command: those that are not routed pushes and
arrive while some callback is still owed a reply.  `owed` counts the replies
owed so far; an accepted submission adds what its entry expects. -/
def answeringReplies (accepting : Bool) (isRouted : redisReply → Bool) :
    Nat → List AsyncEvent → List redisReply
  | _, [] => []
  | owed, .submit _ _ _ subs :: evs =>
    answeringReplies accepting isRouted
      (if accepting then owed + expectedReplies subs else owed) evs
  | owed, .reply r :: evs =>
    if isRouted r then answeringReplies accepting isRouted owed evs
    else
      match owed with
      | 0 => answeringReplies accepting isRouted 0 evs
      | k + 1 => r :: answeringReplies accepting isRouted k evs

/-- The calls owed to subscription entries: every push among the events that
names a known channel or pattern, with the entry it names. -/
def routedCalls (ac : redisAsyncContext) : List AsyncEvent → List Invocation
  | [] => []
  | .submit _ _ _ _ :: evs => routedCalls ac evs
  | .reply r :: evs =>
    match lookupSubscription ac r with
    | some cb => { routed := true, target := cb.ident, reply := r } :: routedCalls ac evs
    | none => routedCalls ac evs

/-- Whether submissions are accepted: neither disconnecting nor freeing. -/
def acceptsCommands (ac : redisAsyncContext) : Bool :=
  decide (ac.c.flags &&& (REDIS_DISCONNECTING ||| REDIS_FREEING) = 0)

/-- The calls made from the head of `replies`, leaving out the routed
subscription pushes. -/
def queueCalls (calls : List Invocation) : List Invocation :=
  calls.filter (fun i => !i.routed)

/-- The call of the callback `target` with the reply `r` from the head of
`replies`. -/
def queueCall (target : CallBackId) (r : redisReply) : Invocation :=
  { routed := false, target := target, reply := r }

/-- A sample session: a reply nobody asked for, two commands of which the second
expects two replies, two replies, a third command, and three more replies. -/
def sampleSession : List AsyncEvent :=
  [.reply (createInteger 0),
   .submit (some 11) (bytes "PING\r\n") none 1,
   .submit (some 12) (bytes "SUBSCRIBE a b\r\n") (some 7) 2,
   .reply (createInteger 1),
   .reply (createInteger 2),
   .submit (some 13) (bytes "GET k\r\n") none 1,
   .reply (createInteger 3),
   .reply (createInteger 4),
   .reply (createInteger 5)]

/-- A context with a zero timeout configured and every hook installed. -/
def ctxZeroTimeout : redisAsyncContext :=
  { c := { err := 0, fd := 3, flags := REDIS_CONNECTED, obuf := [],
           timeout := some { tv_sec := 0, tv_usec := 0 } },
    err := 0, data := none,
    ev := { data := some 100, addRead := some 1, delRead := some 2, addWrite := some 3,
            delWrite := some 4, cleanup := some 5, scheduleTimer := some 6 },
    onDisconnect := none, onConnect := none, replies := [],
    sub := { invalid := [], channels := [], patterns := [] } }

/-- A context with a five-second timeout configured and every hook installed. -/
def ctxFiveSeconds : redisAsyncContext :=
  { ctxZeroTimeout with
    c := { ctxZeroTimeout.c with timeout := some { tv_sec := 5, tv_usec := 0 } } }

/-! # Properties -/

/-! ## Shared lemmas on single-bit masks -/

theorem Flag.mask_eq_two_pow (A : Flag) : A.mask = 2 ^ A.bit := by
  cases A <;> rfl

theorem Flag.bit_lt (A : Flag) : A.bit < 32 := by
  cases A <;> decide

theorem Flag.bit_injective : Function.Injective Flag.bit := by
  intro A B h
  cases A <;> cases B <;> first | rfl | (exact absurd h (by decide))

theorem or_two_pow_and_two_pow (f i j : Nat) (h : i ≠ j) :
    (f ||| 2 ^ i) &&& 2 ^ j = f &&& 2 ^ j := by
  apply Nat.eq_of_testBit_eq
  intro k
  simp only [Nat.testBit_and, Nat.testBit_or, Nat.testBit_two_pow]
  by_cases hj : j = k
  · subst hj
    simp [h]
  · simp [hj]

theorem and_compl_two_pow_and_two_pow (f i j : Nat) (h : i ≠ j) (hj : j < 32) :
    (f &&& (0xFFFFFFFF ^^^ 2 ^ i)) &&& 2 ^ j = f &&& 2 ^ j := by
  have h32 : (0xFFFFFFFF : Nat) = 2 ^ 32 - 1 := by norm_num
  apply Nat.eq_of_testBit_eq
  intro k
  simp only [h32, Nat.testBit_and, Nat.testBit_xor, Nat.testBit_two_pow,
    Nat.testBit_two_pow_sub_one]
  by_cases hk : j = k
  · subst hk
    simp [h, hj]
  · simp [hk]

/-! ## Reply type tags -/

/-- C1 (defect in the header): the tag mapping is not injective on the fourteen
named reply variants, because `REDIS_REPLY_VERB` and `REDIS_REPLY_MAP` are two
different variants that both carry the value 9. -/
theorem redisReplyType_tag_collision :
    REDIS_REPLY_VERB ∈ namedReplyTypes ∧ REDIS_REPLY_MAP ∈ namedReplyTypes ∧
    REDIS_REPLY_VERB ≠ REDIS_REPLY_MAP ∧
    REDIS_REPLY_VERB.tag = 9 ∧ REDIS_REPLY_MAP.tag = 9 ∧
    ¬ Function.Injective redisReplyType.tag := by
  refine ⟨by decide, by decide, by decide, rfl, rfl, ?_⟩
  intro hinj
  exact absurd (hinj (show REDIS_REPLY_VERB.tag = REDIS_REPLY_MAP.tag from rfl)) (by decide)

/-! ## Error codes -/

/-- C5: the six error kinds carry the codes 1, 3, 4, 5, 6 and 2, the codes are
pairwise distinct (the mapping from kind to code is injective) and none of
them is 0, the value `REDIS_OK` that an `err` field holds when there is no
error. -/
theorem errKind_code_injective_nonzero :
    Function.Injective ErrKind.code ∧
    (∀ k : ErrKind, k.code ≠ 0 ∧ k.code ≠ REDIS_OK) ∧
    [ErrKind.ioFailure, .endOfFile, .protocol, .outOfMemory, .timeout, .other].map ErrKind.code
      = [1, 3, 4, 5, 6, 2] := by
  refine ⟨?_, ?_, rfl⟩
  · intro a b h
    cases a <;> cases b <;> first | rfl | (exact absurd h (by decide))
  · intro k
    cases k <;> exact ⟨by decide, by decide⟩

/-! ## Connection flags -/

/-- C6: `REDIS_BLOCK` is bit 0 (value 1) and `REDIS_CONNECTED` bit 1 (value 2)
of the flags word; each of the ten flags is a single-bit mask within the
32-bit word and the masks are pairwise distinct; for every flags word `f` and
every two different flags `A` and `B`, both `f | A` and `f & ~A` have the same
`B` bit as `f`. -/
theorem flags_independent_bits (f : Nat) (A B : Flag) (hAB : A ≠ B) :
    REDIS_BLOCK = 2 ^ 0 ∧ REDIS_CONNECTED = 2 ^ 1 ∧
    (A.mask = 2 ^ A.bit ∧ A.bit < 32) ∧
    A.mask ≠ B.mask ∧
    setFlag f A.mask &&& B.mask = f &&& B.mask ∧
    clearFlag f A.mask &&& B.mask = f &&& B.mask := by
  have hbit : A.bit ≠ B.bit := fun h => hAB (Flag.bit_injective h)
  refine ⟨rfl, rfl, ⟨A.mask_eq_two_pow, A.bit_lt⟩, ?_, ?_, ?_⟩
  · rw [A.mask_eq_two_pow, B.mask_eq_two_pow]
    intro h
    exact hbit (Nat.pow_right_injective (le_refl 2) h)
  · rw [setFlag, A.mask_eq_two_pow, B.mask_eq_two_pow]
    exact or_two_pow_and_two_pow f _ _ hbit
  · rw [clearFlag, A.mask_eq_two_pow, B.mask_eq_two_pow]
    exact and_compl_two_pow_and_two_pow f _ _ hbit B.bit_lt

/-- Witness for C6 at the word `0x2A2`, setting or clearing `REDIS_SUBSCRIBED`
and observing `REDIS_CONNECTED`. -/
theorem flags_independent_bits_witness :
    Flag.subscribed ≠ Flag.connected ∧
    setFlag 0x2A2 Flag.subscribed.mask &&& Flag.connected.mask
      = 0x2A2 &&& Flag.connected.mask ∧
    clearFlag 0x2A2 Flag.subscribed.mask &&& Flag.connected.mask
      = 0x2A2 &&& Flag.connected.mask :=
  ⟨by decide,
   (flags_independent_bits 0x2A2 Flag.subscribed Flag.connected (by decide)).2.2.2.2.1,
   (flags_independent_bits 0x2A2 Flag.subscribed Flag.connected (by decide)).2.2.2.2.2⟩

/-! ## Event-loop hook macros -/

/-- C4 (as stated, refuted): with a configured timeout of zero seconds and a
timer hook installed, registering read or write interest calls only the
registration hook and never `scheduleTimer`. -/
theorem add_interest_zero_timeout_no_timer :
    ctxZeroTimeout.c.timeout = some { tv_sec := 0, tv_usec := 0 } ∧
    ctxZeroTimeout.ev.scheduleTimer = some 6 ∧
    (REDIS_EV_ADD_READ ctxZeroTimeout).2 = [HookCall.plain 1 (some 100)] ∧
    (REDIS_EV_ADD_WRITE ctxZeroTimeout).2 = [HookCall.plain 3 (some 100)] ∧
    (REDIS_EV_ADD_READ ctxZeroTimeout).2.filter HookCall.isTimer = [] ∧
    (REDIS_EV_ADD_WRITE ctxZeroTimeout).2.filter HookCall.isTimer = [] := by
  decide

/-- C4 (amended): when a timeout is configured (`c.timeout` non-NULL), it is
non-zero and the `scheduleTimer` hook is installed, each registration of read
or write interest calls `scheduleTimer` exactly once, with `ev.data` and the
configured timeout value. -/
theorem add_interest_rearms_timer (ctx : redisAsyncContext) (tv : timeval) (f : Nat)
    (hto : ctx.c.timeout = some tv) (hf : ctx.ev.scheduleTimer = some f)
    (hnz : tv.tv_sec ≠ 0 ∨ tv.tv_usec ≠ 0) :
    (REDIS_EV_ADD_READ ctx).2.filter HookCall.isTimer = [HookCall.timer f ctx.ev.data tv] ∧
    (REDIS_EV_ADD_WRITE ctx).2.filter HookCall.isTimer = [HookCall.timer f ctx.ev.data tv] := by
  constructor
  · simp only [REDIS_EV_ADD_READ, refreshTimeout, hto, hf, hnz, if_true]
    cases ctx.ev.addRead <;> simp [HookCall.isTimer]
  · simp only [REDIS_EV_ADD_WRITE, refreshTimeout, hto, hf, hnz, if_true]
    cases ctx.ev.addWrite <;> simp [HookCall.isTimer]

/-- Witness for C4 (amended) on a context with a five-second timeout. -/
theorem add_interest_rearms_timer_witness :
    (REDIS_EV_ADD_READ ctxFiveSeconds).2.filter HookCall.isTimer
      = [HookCall.timer 6 (some 100) { tv_sec := 5, tv_usec := 0 }] ∧
    (REDIS_EV_ADD_WRITE ctxFiveSeconds).2.filter HookCall.isTimer
      = [HookCall.timer 6 (some 100) { tv_sec := 5, tv_usec := 0 }] :=
  add_interest_rearms_timer ctxFiveSeconds { tv_sec := 5, tv_usec := 0 } 6 rfl rfl
    (Or.inl (by decide))

/-- The hook calls of `refreshTimeout` are timer calls only. -/
theorem refreshTimeout_calls_isTimer (ctx : redisAsyncContext) :
    ∀ call ∈ (refreshTimeout ctx).2, call.isTimer = true := by
  intro call hc
  unfold refreshTimeout at hc
  split at hc
  · split at hc
    · simp only [List.mem_singleton] at hc
      subst hc
      rfl
    · simp at hc
  · simp at hc

theorem refreshTimeout_fst (ctx : redisAsyncContext) : (refreshTimeout ctx).1 = ctx := by
  unfold refreshTimeout
  split
  · split <;> rfl
  · rfl

/-- C8: every hook macro leaves the context as it is and dispatches only to
its own hook: the registration calls made by `REDIS_EV_ADD_READ`,
`REDIS_EV_DEL_READ`, `REDIS_EV_ADD_WRITE`, `REDIS_EV_DEL_WRITE` are exactly one
call of `addRead`, `delRead`, `addWrite`, `delWrite` with `ev.data` when that
hook is set and none when it is NULL; the ADD macros make the calls of
`refreshTimeout` first and the hook call after them; the DEL macros make no
timer call. -/
theorem ev_macros_dispatch (ctx : redisAsyncContext) :
    ((REDIS_EV_ADD_READ ctx).1 = ctx ∧
      (REDIS_EV_ADD_READ ctx).2 = (refreshTimeout ctx).2 ++
        (ctx.ev.addRead.map (fun f => HookCall.plain f ctx.ev.data)).toList ∧
      (REDIS_EV_ADD_READ ctx).2.filter (fun call => !call.isTimer) =
        (ctx.ev.addRead.map (fun f => HookCall.plain f ctx.ev.data)).toList) ∧
    ((REDIS_EV_ADD_WRITE ctx).1 = ctx ∧
      (REDIS_EV_ADD_WRITE ctx).2 = (refreshTimeout ctx).2 ++
        (ctx.ev.addWrite.map (fun f => HookCall.plain f ctx.ev.data)).toList ∧
      (REDIS_EV_ADD_WRITE ctx).2.filter (fun call => !call.isTimer) =
        (ctx.ev.addWrite.map (fun f => HookCall.plain f ctx.ev.data)).toList) ∧
    ((REDIS_EV_DEL_READ ctx).1 = ctx ∧
      (REDIS_EV_DEL_READ ctx).2 =
        (ctx.ev.delRead.map (fun f => HookCall.plain f ctx.ev.data)).toList ∧
      (REDIS_EV_DEL_READ ctx).2.filter HookCall.isTimer = []) ∧
    ((REDIS_EV_DEL_WRITE ctx).1 = ctx ∧
      (REDIS_EV_DEL_WRITE ctx).2 =
        (ctx.ev.delWrite.map (fun f => HookCall.plain f ctx.ev.data)).toList ∧
      (REDIS_EV_DEL_WRITE ctx).2.filter HookCall.isTimer = []) := by
  refine ⟨?_, ?_, ?_, ?_⟩
  · simp only [REDIS_EV_ADD_READ, refreshTimeout_fst]
    cases h : ctx.ev.addRead <;> simp [refreshTimeout_fst, HookCall.isTimer] <;>
      exact refreshTimeout_calls_isTimer ctx
  · simp only [REDIS_EV_ADD_WRITE, refreshTimeout_fst]
    cases h : ctx.ev.addWrite <;> simp [refreshTimeout_fst, HookCall.isTimer] <;>
      exact refreshTimeout_calls_isTimer ctx
  · simp only [REDIS_EV_DEL_READ]
    cases h : ctx.ev.delRead <;> simp [HookCall.isTimer]
  · simp only [REDIS_EV_DEL_WRITE]
    cases h : ctx.ev.delWrite <;> simp [HookCall.isTimer]

/-- C9: `refreshTimeout` never changes the context and makes at most one hook
call; a call is made if and only if `c.timeout` is non-NULL, `ev.scheduleTimer`
is non-NULL and the timeout is non-zero (`tv_sec != 0` or `tv_usec != 0`), and
that call is `scheduleTimer(ev.data, *c.timeout)`. -/
theorem refreshTimeout_schedules_iff (ctx : redisAsyncContext) :
    (refreshTimeout ctx).1 = ctx ∧
    (refreshTimeout ctx).2.length ≤ 1 ∧
    (∀ call : HookCall, call ∈ (refreshTimeout ctx).2 ↔
      ∃ tv f, ctx.c.timeout = some tv ∧ ctx.ev.scheduleTimer = some f ∧
        (tv.tv_sec ≠ 0 ∨ tv.tv_usec ≠ 0) ∧ call = HookCall.timer f ctx.ev.data tv) := by
  refine ⟨refreshTimeout_fst ctx, ?_, ?_⟩
  · unfold refreshTimeout
    split
    · split <;> simp
    · simp
  · intro call
    unfold refreshTimeout
    split
    next tv f hto hf =>
      split
      next hnz =>
        simp only [List.mem_singleton]
        constructor
        · intro h
          exact ⟨tv, f, hto, hf, hnz, h⟩
        · rintro ⟨tv2, f2, hto2, hf2, _, hc⟩
          rw [hto] at hto2
          rw [hf] at hf2
          cases hto2
          cases hf2
          exact hc
      next hz =>
        simp only [List.not_mem_nil, false_iff]
        rintro ⟨tv2, f2, hto2, hf2, hnz2, _⟩
        rw [hto] at hto2
        cases hto2
        exact hz hnz2
    next hno =>
      simp only [List.not_mem_nil, false_iff]
      rintro ⟨tv2, f2, hto2, hf2, _, _⟩
      exact hno tv2 f2 hto2 hf2

/-- C10: `REDIS_EV_CLEANUP` calls the `cleanup` hook once with the current
`ev.data` when the hook is set and calls nothing when it is NULL; afterwards
`ev.data` is NULL in the first case and unchanged in the second, and every
other field of the context, the hook pointers included, is unchanged. -/
theorem ev_cleanup_frame (ctx : redisAsyncContext) :
    (REDIS_EV_CLEANUP ctx).2 =
      (ctx.ev.cleanup.map (fun f => HookCall.plain f ctx.ev.data)).toList ∧
    (REDIS_EV_CLEANUP ctx).1.ev.data = (if ctx.ev.cleanup.isSome then none else ctx.ev.data) ∧
    (REDIS_EV_CLEANUP ctx).1 =
      { ctx with ev := { ctx.ev with data := (REDIS_EV_CLEANUP ctx).1.ev.data } } ∧
    (REDIS_EV_CLEANUP ctx).1 =
      (if ctx.ev.cleanup.isSome then { ctx with ev := { ctx.ev with data := none } }
       else ctx) := by
  unfold REDIS_EV_CLEANUP
  cases h : ctx.ev.cleanup <;> simp

/-! ## The reader: lines -/

theorem seekNewline_bound {input : List Nat} {n : Nat} (h : seekNewline input = some n) :
    n + 2 ≤ input.length := by
  induction input generalizing n with
  | nil => simp [seekNewline] at h
  | cons a tl ih =>
    cases tl with
    | nil => simp [seekNewline] at h
    | cons b rest =>
      unfold seekNewline at h
      split_ifs at h with hc
      · cases h
        simp
      · rw [Option.map_eq_some'] at h
        obtain ⟨k, hk, rfl⟩ := h
        have := ih hk
        simp only [List.length_cons] at this ⊢
        omega

theorem seekNewline_append {input : List Nat} {n : Nat} (more : List Nat)
    (h : seekNewline input = some n) : seekNewline (input ++ more) = some n := by
  induction input generalizing n with
  | nil => simp [seekNewline] at h
  | cons a tl ih =>
    cases tl with
    | nil => simp [seekNewline] at h
    | cons b rest =>
      unfold seekNewline at h
      simp only [List.cons_append]
      unfold seekNewline
      split_ifs at h ⊢ with hc
      · exact h
      · rw [Option.map_eq_some'] at h
        obtain ⟨k, hk, rfl⟩ := h
        have := ih hk
        simp only [List.cons_append] at this
        rw [this]
        rfl

theorem seekNewline_append_of_none {input : List Nat} {n : Nat} (more : List Nat)
    (h : seekNewline input = none) (h2 : seekNewline (input ++ more) = some n) :
    input.length ≤ n + 1 := by
  induction input generalizing n with
  | nil => simp
  | cons a tl ih =>
    cases tl with
    | nil => simp
    | cons b rest =>
      unfold seekNewline at h
      simp only [List.cons_append] at h2
      unfold seekNewline at h2
      split_ifs at h h2 with hc
      rw [Option.map_eq_none'] at h
      rw [Option.map_eq_some'] at h2
      obtain ⟨k, hk, rfl⟩ := h2
      have := ih h (by simpa using hk)
      simp only [List.length_cons] at this ⊢
      omega

theorem readLine_of_some {lim n : Nat} {input : List Nat} (h : seekNewline input = some n) :
    readLine lim input = if n ≤ lim then .line (input.take n) (n + 2) else .tooLong := by
  simp only [readLine, h]

theorem readLine_of_none {lim : Nat} {input : List Nat} (h : seekNewline input = none) :
    readLine lim input = if lim + 2 ≤ input.length then .tooLong else .needMore := by
  simp only [readLine, h]

theorem readLine_line_bound {lim : Nat} {input l : List Nat} {u : Nat}
    (h : readLine lim input = .line l u) : 2 ≤ u ∧ u ≤ input.length := by
  cases hn : seekNewline input with
  | none =>
    rw [readLine_of_none hn] at h
    split_ifs at h
  | some n =>
    rw [readLine_of_some hn] at h
    split_ifs at h
    cases h
    have := seekNewline_bound hn
    omega

theorem readLine_append_line {lim : Nat} {input l : List Nat} {u : Nat} (more : List Nat)
    (h : readLine lim input = .line l u) : readLine lim (input ++ more) = .line l u := by
  cases hn : seekNewline input with
  | none =>
    rw [readLine_of_none hn] at h
    split_ifs at h
  | some n =>
    rw [readLine_of_some hn] at h
    rw [readLine_of_some (seekNewline_append more hn)]
    have := seekNewline_bound hn
    split_ifs at h ⊢
    cases h
    rw [List.take_append_of_le_length (by omega)]

theorem readLine_append_tooLong {lim : Nat} {input : List Nat} (more : List Nat)
    (h : readLine lim input = .tooLong) : readLine lim (input ++ more) = .tooLong := by
  cases hn : seekNewline input with
  | some n =>
    rw [readLine_of_some hn] at h
    rw [readLine_of_some (seekNewline_append more hn)]
    split_ifs at h ⊢
    rfl
  | none =>
    rw [readLine_of_none hn] at h
    split_ifs at h with hl
    cases hm : seekNewline (input ++ more) with
    | none =>
      rw [readLine_of_none hm, List.length_append, if_pos (by omega)]
    | some k =>
      have := seekNewline_append_of_none more hn hm
      rw [readLine_of_some hm, if_neg (by omega)]

/-! ## The reader: one item -/

theorem processLineItem_append_ok {lim : Nat} {cur : redisReadTask}
    {parents : List redisReadTask} {input : List Nat} {p : Progress} {n : Nat}
    (more : List Nat) (h : processLineItem lim cur parents input = .ok p n) :
    processLineItem lim cur parents (input ++ more) = .ok p n ∧ 1 ≤ n ∧ n ≤ input.length := by
  unfold processLineItem at h ⊢
  cases hrl : readLine lim input with
  | needMore => simp [hrl] at h
  | tooLong => simp [hrl] at h
  | line l u =>
    rw [readLine_append_line more hrl]
    rw [hrl] at h
    have hb := readLine_line_bound hrl
    cases hv : lineValue cur.type l with
    | none => simp [hv] at h
    | some v =>
      simp only [hv] at h ⊢
      cases h
      exact ⟨rfl, by omega, hb.2⟩

theorem processLineItem_append_fail {lim : Nat} {cur : redisReadTask}
    {parents : List redisReadTask} {input : List Nat} {c : Int} {m : String}
    (more : List Nat) (h : processLineItem lim cur parents input = .fail c m) :
    processLineItem lim cur parents (input ++ more) = .fail c m := by
  unfold processLineItem at h ⊢
  cases hrl : readLine lim input with
  | needMore => simp [hrl] at h
  | tooLong =>
    rw [readLine_append_tooLong more hrl]
    rw [hrl] at h
    exact h
  | line l u =>
    rw [readLine_append_line more hrl]
    rw [hrl] at h
    exact h

theorem processBulkItem_append_ok {lim : Nat} {cur : redisReadTask}
    {parents : List redisReadTask} {input : List Nat} {p : Progress} {n : Nat}
    (more : List Nat) (h : processBulkItem lim cur parents input = .ok p n) :
    processBulkItem lim cur parents (input ++ more) = .ok p n ∧ 1 ≤ n ∧ n ≤ input.length := by
  unfold processBulkItem at h ⊢
  cases hrl : readLine lim input with
  | needMore => simp [hrl] at h
  | tooLong => simp [hrl] at h
  | line l u =>
    rw [readLine_append_line more hrl]
    rw [hrl] at h
    have hb := readLine_line_bound hrl
    cases hv : string2ll l with
    | none => simp [hv] at h
    | some k =>
      simp only [hv] at h ⊢
      by_cases h1 : k < -1
      · simp [h1] at h
      · by_cases h2 : k = -1
        · simp only [h1, h2, if_false, if_true] at h ⊢
          cases h
          exact ⟨by simp, by omega, hb.2⟩
        · by_cases h3 : input.length < u + k.toNat + 2
          · simp [h1, h2, h3] at h
          · have h3' : ¬ (input ++ more).length < u + k.toNat + 2 := by
              rw [List.length_append]
              omega
            have hd : List.drop (u + k.toNat) (input ++ more)
                = List.drop (u + k.toNat) input ++ more :=
              List.drop_append_of_le_length (by omega)
            have ht : List.take 2 (List.drop (u + k.toNat) input ++ more)
                = List.take 2 (List.drop (u + k.toNat) input) :=
              List.take_append_of_le_length (by rw [List.length_drop]; omega)
            have hd2 : List.drop u (input ++ more) = List.drop u input ++ more :=
              List.drop_append_of_le_length (by omega)
            have ht2 : List.take k.toNat (List.drop u input ++ more)
                = List.take k.toNat (List.drop u input) :=
              List.take_append_of_le_length (by rw [List.length_drop]; omega)
            simp only [h1, h2, h3, h3', if_false, hd, ht, hd2, ht2] at h ⊢
            split_ifs at h ⊢
            cases h
            exact ⟨rfl, by omega, by omega⟩

theorem processBulkItem_append_fail {lim : Nat} {cur : redisReadTask}
    {parents : List redisReadTask} {input : List Nat} {c : Int} {m : String}
    (more : List Nat) (h : processBulkItem lim cur parents input = .fail c m) :
    processBulkItem lim cur parents (input ++ more) = .fail c m := by
  unfold processBulkItem at h ⊢
  cases hrl : readLine lim input with
  | needMore => simp [hrl] at h
  | tooLong =>
    rw [readLine_append_tooLong more hrl]
    rw [hrl] at h
    exact h
  | line l u =>
    rw [readLine_append_line more hrl]
    rw [hrl] at h
    have hb := readLine_line_bound hrl
    cases hv : string2ll l with
    | none =>
      simp only [hv] at h ⊢
      exact h
    | some k =>
      simp only [hv] at h ⊢
      by_cases h1 : k < -1
      · simp only [h1, if_true] at h ⊢
        exact h
      · by_cases h2 : k = -1
        · simp [h1, h2] at h
        · by_cases h3 : input.length < u + k.toNat + 2
          · simp [h1, h2, h3] at h
          · have h3' : ¬ (input ++ more).length < u + k.toNat + 2 := by
              rw [List.length_append]
              omega
            have hd : List.drop (u + k.toNat) (input ++ more)
                = List.drop (u + k.toNat) input ++ more :=
              List.drop_append_of_le_length (by omega)
            have ht : List.take 2 (List.drop (u + k.toNat) input ++ more)
                = List.take 2 (List.drop (u + k.toNat) input) :=
              List.take_append_of_le_length (by rw [List.length_drop]; omega)
            simp only [h1, h2, h3, h3', if_false, hd, ht] at h ⊢
            split_ifs at h ⊢
            exact h

theorem processAggregateItem_append_ok {cap lim : Nat} {cur : redisReadTask}
    {parents : List redisReadTask} {input : List Nat} {p : Progress} {n : Nat}
    (more : List Nat) (h : processAggregateItem cap lim cur parents input = .ok p n) :
    processAggregateItem cap lim cur parents (input ++ more) = .ok p n ∧
      1 ≤ n ∧ n ≤ input.length := by
  unfold processAggregateItem at h ⊢
  cases hrl : readLine lim input with
  | needMore => simp [hrl] at h
  | tooLong => simp [hrl] at h
  | line l u =>
    rw [readLine_append_line more hrl]
    rw [hrl] at h
    have hb := readLine_line_bound hrl
    cases hv : string2ll l with
    | none => simp [hv] at h
    | some k =>
      simp only [hv] at h ⊢
      split_ifs at h ⊢ <;> cases h <;> exact ⟨rfl, by omega, hb.2⟩

theorem processAggregateItem_append_fail {cap lim : Nat} {cur : redisReadTask}
    {parents : List redisReadTask} {input : List Nat} {c : Int} {m : String}
    (more : List Nat) (h : processAggregateItem cap lim cur parents input = .fail c m) :
    processAggregateItem cap lim cur parents (input ++ more) = .fail c m := by
  unfold processAggregateItem at h ⊢
  cases hrl : readLine lim input with
  | needMore => simp [hrl] at h
  | tooLong =>
    rw [readLine_append_tooLong more hrl]
    rw [hrl] at h
    exact h
  | line l u =>
    rw [readLine_append_line more hrl]
    rw [hrl] at h
    exact h

theorem processItem_append_ok {cap lim : Nat} {stack : List redisReadTask}
    {input : List Nat} {p : Progress} {n : Nat}
    (more : List Nat) (h : processItem cap lim stack input = .ok p n) :
    processItem cap lim stack (input ++ more) = .ok p n ∧ 1 ≤ n ∧ n ≤ input.length := by
  unfold processItem at h ⊢
  cases stack with
  | nil => simp at h
  | cons cur parents =>
    simp only at h ⊢
    split at h
    · cases input with
      | nil => simp at h
      | cons b tl =>
        simp only [List.cons_append] at h ⊢
        split at h
        · cases h
          rename_i t ht
          simp [ht]
        · simp at h
    · exact processBulkItem_append_ok more h
    · exact processBulkItem_append_ok more h
    · exact processAggregateItem_append_ok more h
    · exact processAggregateItem_append_ok more h
    · exact processAggregateItem_append_ok more h
    · exact processAggregateItem_append_ok more h
    · exact processAggregateItem_append_ok more h
    · exact processLineItem_append_ok more h

theorem processItem_append_fail {cap lim : Nat} {stack : List redisReadTask}
    {input : List Nat} {c : Int} {m : String}
    (more : List Nat) (h : processItem cap lim stack input = .fail c m) :
    processItem cap lim stack (input ++ more) = .fail c m := by
  unfold processItem at h ⊢
  cases stack with
  | nil => simp at h
  | cons cur parents =>
    simp only at h ⊢
    split at h
    · cases input with
      | nil => simp at h
      | cons b tl =>
        simp only [List.cons_append] at h ⊢
        split at h
        · simp at h
        · exact h
    · exact processBulkItem_append_fail more h
    · exact processBulkItem_append_fail more h
    · exact processAggregateItem_append_fail more h
    · exact processAggregateItem_append_fail more h
    · exact processAggregateItem_append_fail more h
    · exact processAggregateItem_append_fail more h
    · exact processAggregateItem_append_fail more h
    · exact processLineItem_append_fail more h

/-! ## The reader: the item loop -/

theorem moveToNextTask_next {v : Option redisReply} {cur : redisReadTask}
    {parents s : List redisReadTask} (h : moveToNextTask v cur parents = .next s) :
    s ≠ [] ∧ s.length ≤ parents.length + 1 := by
  induction parents generalizing v cur s with
  | nil => simp [moveToNextTask] at h
  | cons prv rest ih =>
    unfold moveToNextTask at h
    simp only at h
    split_ifs at h
    · have := ih h
      exact ⟨this.1, by simp only [List.length_cons]; omega⟩
    · cases h
      simp

theorem processItem_next {cap lim : Nat} {stack s : List redisReadTask} {input : List Nat}
    {n : Nat} (h : processItem cap lim stack input = .ok (.next s) n) :
    s ≠ [] ∧ (s.length ≤ stack.length ∨ s.length ≤ cap) := by
  unfold processItem at h
  cases stack with
  | nil => simp at h
  | cons cur parents =>
    simp only at h
    have hline : ∀ {lim cur parents input}, processLineItem lim cur parents input = .ok (.next s) n →
        s ≠ [] ∧ s.length ≤ parents.length + 1 := by
      intro lim cur parents input h
      unfold processLineItem at h
      split at h
      · simp at h
      · simp at h
      · split at h
        · simp at h
        · simp only [ItemResult.ok.injEq] at h
          exact moveToNextTask_next h.1
    have hbulk : ∀ {lim cur parents input}, processBulkItem lim cur parents input = .ok (.next s) n →
        s ≠ [] ∧ s.length ≤ parents.length + 1 := by
      intro lim cur parents input h
      unfold processBulkItem at h
      split at h
      · simp at h
      · simp at h
      · split at h
        · simp at h
        · split_ifs at h <;> simp only [ItemResult.ok.injEq] at h <;>
            exact moveToNextTask_next h.1
    have hagg : ∀ {lim cur parents input},
        processAggregateItem cap lim cur parents input = .ok (.next s) n →
        s ≠ [] ∧ (s.length ≤ parents.length + 1 ∨ s.length ≤ cap) := by
      intro lim cur parents input h
      unfold processAggregateItem at h
      split at h
      · simp at h
      · simp at h
      · split at h
        · simp at h
        · split_ifs at h with h1 h2 h3 h4
          · simp only [ItemResult.ok.injEq] at h
            have := moveToNextTask_next h.1
            exact ⟨this.1, Or.inl this.2⟩
          · simp only [ItemResult.ok.injEq] at h
            have := moveToNextTask_next h.1
            exact ⟨this.1, Or.inl this.2⟩
          · simp only [ItemResult.ok.injEq, Progress.next.injEq] at h
            rw [← h.1]
            refine ⟨by simp, Or.inr ?_⟩
            simp only [List.length_cons]
            omega
    split at h
    · cases input with
      | nil => simp at h
      | cons b tl =>
        simp only at h
        split at h
        · simp only [ItemResult.ok.injEq, Progress.next.injEq] at h
          rw [← h.1]
          simp
        · simp at h
    · have := hbulk h
      exact ⟨this.1, Or.inl this.2⟩
    · have := hbulk h
      exact ⟨this.1, Or.inl this.2⟩
    · exact hagg h
    · exact hagg h
    · exact hagg h
    · exact hagg h
    · exact hagg h
    · have := hline h
      exact ⟨this.1, Or.inl this.2⟩

theorem processItems_addUsed (cap lim : Nat) (f : Nat) (stack : List redisReadTask)
    (input : List Nat) (used k : Nat) :
    processItems cap lim f stack input (used + k)
      = (processItems cap lim f stack input used).addUsed k := by
  induction f generalizing stack input used with
  | zero => rfl
  | succ f ih =>
    unfold processItems
    cases hp : processItem cap lim stack input with
    | needMore => rfl
    | fail c m => rfl
    | ok p n =>
      cases p with
      | finished v =>
        simp only [LoopResult.addUsed]
        congr 1
        omega
      | next s1 =>
        simp only
        rw [← ih]
        congr 1
        omega

theorem processItems_fuel_mono {cap lim : Nat} {f : Nat} {stack : List redisReadTask}
    {input : List Nat} {used : Nat} {res : LoopResult}
    (h : processItems cap lim f stack input used = res) (hres : res ≠ .outOfFuel)
    (f2 : Nat) (hf : f ≤ f2) : processItems cap lim f2 stack input used = res := by
  induction f generalizing stack input used f2 with
  | zero =>
    unfold processItems at h
    exact absurd h.symm hres
  | succ f ih =>
    obtain ⟨g, rfl⟩ : ∃ g, f2 = g + 1 := ⟨f2 - 1, by omega⟩
    unfold processItems at h ⊢
    cases hp : processItem cap lim stack input with
    | needMore => rw [hp] at h; exact h
    | fail c m => rw [hp] at h; exact h
    | ok p n =>
      rw [hp] at h
      cases p with
      | finished v => exact h
      | next s1 => exact ih h g (by omega)

theorem processItems_enough (cap lim : Nat) (f : Nat) (stack : List redisReadTask)
    (input : List Nat) (used : Nat) (hf : input.length < f) :
    processItems cap lim f stack input used ≠ .outOfFuel := by
  induction f generalizing stack input used with
  | zero => omega
  | succ f ih =>
    unfold processItems
    cases hp : processItem cap lim stack input with
    | needMore => simp
    | fail c m => simp
    | ok p n =>
      cases p with
      | finished v => simp
      | next s1 =>
        have hb := (processItem_append_ok [] hp).2
        exact ih s1 (input.drop n) (used + n) (by rw [List.length_drop]; omega)

theorem processItems_functional {cap lim : Nat} {f1 f2 : Nat} {stack : List redisReadTask}
    {input : List Nat} {used : Nat} {r1 r2 : LoopResult}
    (h1 : processItems cap lim f1 stack input used = r1) (hr1 : r1 ≠ .outOfFuel)
    (h2 : processItems cap lim f2 stack input used = r2) (hr2 : r2 ≠ .outOfFuel) :
    r1 = r2 := by
  have a := processItems_fuel_mono h1 hr1 (max f1 f2) (le_max_left _ _)
  have b := processItems_fuel_mono h2 hr2 (max f1 f2) (le_max_right _ _)
  rw [← a, ← b]

theorem processItems_append_complete {cap lim : Nat} {f : Nat} {stack : List redisReadTask}
    {input : List Nat} {used : Nat} {v : Option redisReply} {u : Nat} (more : List Nat)
    (h : processItems cap lim f stack input used = .complete v u) :
    processItems cap lim f stack (input ++ more) used = .complete v u := by
  induction f generalizing stack input used with
  | zero => simp [processItems] at h
  | succ f ih =>
    unfold processItems at h ⊢
    cases hp : processItem cap lim stack input with
    | needMore => simp [hp] at h
    | fail c m => simp [hp] at h
    | ok p n =>
      obtain ⟨hq, _, hn⟩ := processItem_append_ok more hp
      rw [hp] at h
      rw [hq]
      cases p with
      | finished v1 => exact h
      | next s1 =>
        simp only at h ⊢
        rw [List.drop_append_of_le_length hn]
        exact ih h

theorem processItems_append_failed {cap lim : Nat} {f : Nat} {stack : List redisReadTask}
    {input : List Nat} {used : Nat} {c : Int} {m : String} (more : List Nat)
    (h : processItems cap lim f stack input used = .failed c m) :
    processItems cap lim f stack (input ++ more) used = .failed c m := by
  induction f generalizing stack input used with
  | zero => simp [processItems] at h
  | succ f ih =>
    unfold processItems at h ⊢
    cases hp : processItem cap lim stack input with
    | needMore => simp [hp] at h
    | fail c1 m1 =>
      rw [hp] at h
      rw [processItem_append_fail more hp]
      exact h
    | ok p n =>
      obtain ⟨hq, _, hn⟩ := processItem_append_ok more hp
      rw [hp] at h
      rw [hq]
      cases p with
      | finished v1 => simp at h
      | next s1 =>
        simp only at h ⊢
        rw [List.drop_append_of_le_length hn]
        exact ih h

theorem processItems_incomplete {cap lim : Nat} {f : Nat} {stack : List redisReadTask}
    {input : List Nat} {used : Nat} {s : List redisReadTask} {u : Nat}
    (h : processItems cap lim f stack input used = .incomplete s u) :
    used ≤ u ∧ u - used ≤ input.length ∧
    processItem cap lim s (input.drop (u - used)) = .needMore ∧
    (stack ≠ [] → s ≠ []) ∧
    (stack.length ≤ cap → s.length ≤ cap) := by
  induction f generalizing stack input used with
  | zero => simp [processItems] at h
  | succ f ih =>
    unfold processItems at h
    cases hp : processItem cap lim stack input with
    | needMore =>
      rw [hp] at h
      simp only [LoopResult.incomplete.injEq] at h
      obtain ⟨rfl, rfl⟩ := h
      simp [hp]
    | fail c m => simp [hp] at h
    | ok p n =>
      obtain ⟨_, _, hn⟩ := processItem_append_ok [] hp
      rw [hp] at h
      cases p with
      | finished v1 => simp at h
      | next s1 =>
        simp only at h
        obtain ⟨h1, h2, h3, h4, h5⟩ := ih h
        have hs1 := processItem_next hp
        rw [List.length_drop] at h2
        rw [List.drop_drop] at h3
        have e : n + (u - (used + n)) = u - used := by omega
        rw [e] at h3
        refine ⟨by omega, by omega, h3, fun _ => h4 hs1.1, fun hc => h5 ?_⟩
        rcases hs1.2 with hl | hl
        · omega
        · exact hl

theorem processItems_resume {cap lim : Nat} {f : Nat} {stack : List redisReadTask}
    {input : List Nat} {used : Nat} {s : List redisReadTask} {u : Nat} (more : List Nat)
    (h : processItems cap lim f stack input used = .incomplete s u)
    {f2 : Nat} {res : LoopResult}
    (h2 : processItems cap lim f2 s (input.drop (u - used) ++ more) u = res) :
    ∃ f3, processItems cap lim f3 stack (input ++ more) used = res := by
  induction f generalizing stack input used with
  | zero => simp [processItems] at h
  | succ f ih =>
    unfold processItems at h
    cases hp : processItem cap lim stack input with
    | needMore =>
      rw [hp] at h
      simp only [LoopResult.incomplete.injEq] at h
      obtain ⟨rfl, rfl⟩ := h
      simp only [Nat.sub_self, List.drop_zero] at h2
      exact ⟨f2, h2⟩
    | fail c m => simp [hp] at h
    | ok p n =>
      obtain ⟨hq, _, hn⟩ := processItem_append_ok more hp
      rw [hp] at h
      cases p with
      | finished v1 => simp at h
      | next s1 =>
        simp only at h
        have hb := processItems_incomplete h
        have e : (input.drop n).drop (u - (used + n)) = input.drop (u - used) := by
          rw [List.drop_drop]
          congr 1
          omega
        obtain ⟨f3, h3⟩ := ih h (by rw [e]; exact h2)
        refine ⟨f3 + 1, ?_⟩
        unfold processItems
        rw [hq]
        simp only
        rw [List.drop_append_of_le_length hn]
        exact h3

/-! ## The reader: feeding and getting replies -/

theorem compact_err (r : redisReader) : (compact r).err = r.err := by
  unfold compact
  split_ifs <;> rfl

theorem compact_rstack (r : redisReader) : (compact r).rstack = r.rstack := by
  unfold compact
  split_ifs <;> rfl

theorem compact_unread (r : redisReader) : (compact r).unread = r.unread := by
  unfold compact redisReader.unread
  split_ifs <;> simp

theorem compact_pos_le (r : redisReader) (h : r.pos ≤ r.buf.length) :
    (compact r).pos ≤ (compact r).buf.length := by
  unfold compact
  split_ifs
  · simp
  · exact h

theorem feed_unread (r : redisReader) (chunk : List Nat) (h : r.pos ≤ r.buf.length) :
    (redisReaderFeed r chunk).2.unread = r.unread ++ chunk := by
  simp only [redisReaderFeed, redisReader.unread]
  exact List.drop_append_of_le_length h

theorem currentStack_of_ne_nil {r : redisReader} (h : r.rstack ≠ []) :
    currentStack r = r.rstack := by
  unfold currentStack
  cases hs : r.rstack with
  | nil => exact absurd hs h
  | cons a tl => rfl

theorem currentStack_ne_nil (r : redisReader) : currentStack r ≠ [] := by
  unfold currentStack
  cases hs : r.rstack with
  | nil => simp
  | cons a tl => simp

theorem currentStack_length_le (r : redisReader) (cap : Nat) (hc : 1 ≤ cap)
    (h : r.rstack.length ≤ cap) : (currentStack r).length ≤ cap := by
  unfold currentStack
  cases hs : r.rstack with
  | nil => simpa using hc
  | cons a tl => simpa [hs] using h

/-- The outcome of `getReplyWith` on a reader without error, by the result of
the item loop. -/
theorem getReplyWith_eq (cap lim : Nat) (r : redisReader) (h : r.err = 0) :
    getReplyWith cap lim r =
      match processItems cap lim (r.unread.length + 1) (currentStack r) r.unread 0 with
      | .complete v used =>
        (REDIS_OK, v, compact { r with pos := r.pos + used, rstack := [], reply := none })
      | .incomplete stack used =>
        (REDIS_OK, none, compact { r with pos := r.pos + used, rstack := stack })
      | .failed code msg => (REDIS_ERR, none, { r with err := code, errstr := msg })
      | .outOfFuel => (REDIS_OK, none, r) := by
  unfold getReplyWith
  rw [if_neg (by simp [h])]

theorem getReplyWith_complete {cap lim : Nat} {r : redisReader} {v : redisReply}
    (h0 : r.err = 0) (h : (getReplyWith cap lim r).2.1 = some v) :
    ∃ u, processItems cap lim (r.unread.length + 1) (currentStack r) r.unread 0
      = .complete (some v) u := by
  rw [getReplyWith_eq cap lim r h0] at h
  cases hp : processItems cap lim (r.unread.length + 1) (currentStack r) r.unread 0 with
  | complete v1 u =>
    rw [hp] at h
    simp only at h
    exact ⟨u, by rw [h]⟩
  | incomplete s u => rw [hp] at h; simp at h
  | failed c m => rw [hp] at h; simp at h
  | outOfFuel => rw [hp] at h; simp at h

theorem feedChunks_complete (lim : Nat) (chunks : List (List Nat)) (v : redisReply) :
    ∀ r : redisReader, r.err = 0 → r.pos ≤ r.buf.length →
      processItem REDIS_READER_STACK_SIZE lim (currentStack r) r.unread = .needMore →
      (∃ f u, processItems REDIS_READER_STACK_SIZE lim f (currentStack r)
          (r.unread ++ chunks.flatten) 0 = .complete (some v) u) →
      (feedChunks lim r chunks).1 = REDIS_OK ∧ (feedChunks lim r chunks).2.1 = some v := by
  induction chunks with
  | nil =>
    intro r _ _ hq ⟨f, u, hw⟩
    simp only [List.flatten_nil, List.append_nil] at hw
    cases f with
    | zero => simp [processItems] at hw
    | succ f =>
      unfold processItems at hw
      rw [hq] at hw
      simp at hw
  | cons c cs ih =>
    intro r herr hpos hq ⟨f, u, hw⟩
    have hwne : LoopResult.complete (some v) u ≠ .outOfFuel := by simp
    rw [List.flatten_cons, ← List.append_assoc] at hw
    set r1 := (redisReaderFeed r c).2 with hr1
    have hr1err : r1.err = 0 := herr
    have hr1un : r1.unread = r.unread ++ c := feed_unread r c hpos
    have hr1cs : currentStack r1 = currentStack r := rfl
    have hr1pos : r1.pos ≤ r1.buf.length := by
      simp only [hr1, redisReaderFeed, List.length_append]
      omega
    unfold feedChunks
    simp only [redisReaderGetReply]
    rw [← hr1, getReplyWith_eq _ lim r1 hr1err, hr1un, hr1cs]
    cases hp : processItems REDIS_READER_STACK_SIZE lim ((r.unread ++ c).length + 1)
        (currentStack r) (r.unread ++ c) 0 with
    | outOfFuel =>
      exact absurd hp (processItems_enough _ _ _ _ _ _ (by omega))
    | failed code msg =>
      have := processItems_append_failed cs.flatten hp
      have := processItems_functional this (by simp) hw hwne
      simp at this
    | complete v1 u1 =>
      have := processItems_append_complete cs.flatten hp
      have := processItems_functional this (by simp) hw hwne
      simp only [LoopResult.complete.injEq] at this
      simp [this.1]
    | incomplete s u1 =>
      obtain ⟨_, hu, hnm, hne, _⟩ := processItems_incomplete hp
      simp only [Nat.sub_zero] at hu hnm
      have hsne : s ≠ [] := hne (currentStack_ne_nil r)
      simp only [Option.isNone_none, and_self, if_true]
      set r2 := compact { r1 with pos := r1.pos + u1, rstack := s } with hr2
      have hr2err : r2.err = 0 := by rw [hr2, compact_err]; exact hr1err
      have hr2un : r2.unread = (r.unread ++ c).drop u1 := by
        rw [hr2, compact_unread]
        simp only [redisReader.unread]
        rw [← List.drop_drop]
        exact congrArg _ hr1un
      have hr2cs : currentStack r2 = s := by
        rw [currentStack_of_ne_nil] <;> rw [hr2, compact_rstack]
        exact hsne
      have hr2pos : r2.pos ≤ r2.buf.length := by
        rw [hr2]
        apply compact_pos_le
        simp only
        have : r1.unread.length = r1.buf.length - r1.pos := by
          simp [redisReader.unread]
        rw [hr1un] at this
        omega
      apply ih r2 hr2err hr2pos
      · rw [hr2cs, hr2un]
        exact hnm
      · rw [hr2cs, hr2un]
        have hen := processItems_enough REDIS_READER_STACK_SIZE lim
          ((List.drop u1 (r.unread ++ c) ++ cs.flatten).length + 1) s
          (List.drop u1 (r.unread ++ c) ++ cs.flatten) u1 (by omega)
        obtain ⟨f3, h3⟩ := processItems_resume cs.flatten hp (rfl :
          processItems REDIS_READER_STACK_SIZE lim
            ((List.drop u1 (r.unread ++ c) ++ cs.flatten).length + 1) s
            (List.drop (u1 - 0) (r.unread ++ c) ++ cs.flatten) u1 = _)
        simp only [Nat.sub_zero] at h3
        have heq := processItems_functional h3 hen hw hwne
        have hsh := processItems_addUsed REDIS_READER_STACK_SIZE lim
          ((List.drop u1 (r.unread ++ c) ++ cs.flatten).length + 1) s
          (List.drop u1 (r.unread ++ c) ++ cs.flatten) 0 u1
        rw [Nat.zero_add, heq] at hsh
        refine ⟨(List.drop u1 (r.unread ++ c) ++ cs.flatten).length + 1, ?_⟩
        cases hz : processItems REDIS_READER_STACK_SIZE lim
          ((List.drop u1 (r.unread ++ c) ++ cs.flatten).length + 1) s
          (List.drop u1 (r.unread ++ c) ++ cs.flatten) 0 with
        | complete v2 u2 =>
          rw [hz] at hsh
          simp only [LoopResult.addUsed, LoopResult.complete.injEq] at hsh
          exact ⟨u2, by rw [hsh.1]⟩
        | incomplete s2 u2 => rw [hz] at hsh; simp [LoopResult.addUsed] at hsh
        | failed c2 m2 => rw [hz] at hsh; simp [LoopResult.addUsed] at hsh
        | outOfFuel => rw [hz] at hsh; simp [LoopResult.addUsed] at hsh

/-- The scenarios of the specification (section 8), run on the model. -/
theorem reader_scenarios :
    (redisReaderGetReply 64 (redisReaderFeed redisReaderCreate (bytes "+OK\r\n")).2).2.1
      = some (.mk REDIS_REPLY_STATUS 0 (bytes "OK") []) ∧
    (redisReaderGetReply 64 (redisReaderFeed redisReaderCreate (bytes "$-1\r\n")).2).2.1
      = some (.mk REDIS_REPLY_NIL 0 [] []) ∧
    (redisReaderGetReply 64 (redisReaderFeed redisReaderCreate (bytes "$6\r\nfoo")).2).1
      = REDIS_OK ∧
    (redisReaderGetReply 64 (redisReaderFeed redisReaderCreate (bytes "$6\r\nfoo")).2).2.1
      = none ∧
    (feedChunks 64 redisReaderCreate [bytes "$6\r\nfoo", bytes "bar\r\n"]).2.1
      = some (.mk REDIS_REPLY_STRING 0 (bytes "foobar") []) ∧
    (redisReaderGetReply 64 (redisReaderFeed redisReaderCreate (bytes "-ERR bad\r\n")).2).2.1
      = some (.mk REDIS_REPLY_ERROR 0 (bytes "ERR bad") []) ∧
    (redisReaderGetReply 64 (redisReaderFeed redisReaderCreate (bytes "-ERR bad\r\n")).2).2.2.err
      = 0 ∧
    (redisReaderGetReply 64 (redisReaderFeed redisReaderCreate (bytes "*-1\r\n")).2).2.1
      = some (.mk REDIS_REPLY_NIL 0 [] []) ∧
    (redisReaderGetReply 64 (redisReaderFeed redisReaderCreate (bytes "?\r\n")).2).2.2.err
      = REDIS_ERR_PROTOCOL :=
  ⟨rfl, rfl, rfl, rfl, rfl, rfl, rfl, rfl, rfl⟩

/-- C2: fragmentation-invariance of the reader.  For every byte sequence on
which an idle reader, fed the whole sequence by one `redisReaderFeed`, returns
the reply `v` from `redisReaderGetReply`, and for every way of cutting the
sequence into consecutive chunks, feeding the chunks one by one and calling
`redisReaderGetReply` after each returns `REDIS_OK` with the same reply `v`
(every earlier call having returned `REDIS_OK` without a reply). -/
theorem fragmentation_invariance (lim m : Nat) (chunks : List (List Nat)) (v : redisReply)
    (hwhole : (redisReaderGetReply lim
      (redisReaderFeed (idleReader m) chunks.flatten).2).2.1 = some v) :
    (feedChunks lim (idleReader m) chunks).1 = REDIS_OK ∧
    (feedChunks lim (idleReader m) chunks).2.1 = some v := by
  obtain ⟨u, hu⟩ := getReplyWith_complete rfl hwhole
  apply feedChunks_complete lim chunks v (idleReader m) rfl (Nat.le_refl _) rfl
  have hun : (redisReaderFeed (idleReader m) chunks.flatten).2.unread
      = (idleReader m).unread ++ chunks.flatten := feed_unread _ _ (Nat.le_refl _)
  rw [hun] at hu
  exact ⟨_, u, hu⟩

/-- Witness for C2: the array `*2 $3 foo :42` cut inside the bulk payload and
inside the integer line. -/
theorem fragmentation_invariance_witness :
    (redisReaderGetReply 64 (redisReaderFeed (idleReader 4)
      [bytes "*2\r\n$3\r\nfo", bytes "o\r\n:4", bytes "2\r\n"].flatten).2).2.1
      = some (.mk REDIS_REPLY_ARRAY 0 []
          [.mk REDIS_REPLY_STRING 0 (bytes "foo") [], .mk REDIS_REPLY_INTEGER 42 [] []]) ∧
    (feedChunks 64 (idleReader 4)
      [bytes "*2\r\n$3\r\nfo", bytes "o\r\n:4", bytes "2\r\n"]).2.1
      = some (.mk REDIS_REPLY_ARRAY 0 []
          [.mk REDIS_REPLY_STRING 0 (bytes "foo") [], .mk REDIS_REPLY_INTEGER 42 [] []]) :=
  ⟨rfl, (fragmentation_invariance 64 4
      [bytes "*2\r\n$3\r\nfo", bytes "o\r\n:4", bytes "2\r\n"] _ rfl).2⟩

/-! ## The reader: the bound on nesting -/

theorem processAggregateItem_cap (cap1 cap2 lim : Nat) (cur : redisReadTask)
    (parents : List redisReadTask) (input : List Nat) (hc : cap1 ≤ cap2) :
    processAggregateItem cap2 lim cur parents input
      = processAggregateItem cap1 lim cur parents input ∨
    ∃ msg, processAggregateItem cap1 lim cur parents input = .fail REDIS_ERR_PROTOCOL msg := by
  unfold processAggregateItem
  cases readLine lim input with
  | needMore => exact Or.inl rfl
  | tooLong => exact Or.inl rfl
  | line l u =>
    simp only
    cases string2ll l with
    | none => exact Or.inl rfl
    | some k =>
      simp only
      split_ifs <;> first | exact Or.inl rfl | exact Or.inr ⟨_, rfl⟩ | omega

theorem processItem_cap (cap1 cap2 lim : Nat) (stack : List redisReadTask)
    (input : List Nat) (hc : cap1 ≤ cap2) :
    processItem cap2 lim stack input = processItem cap1 lim stack input ∨
    ∃ msg, processItem cap1 lim stack input = .fail REDIS_ERR_PROTOCOL msg := by
  unfold processItem
  cases stack with
  | nil => exact Or.inl rfl
  | cons cur parents =>
    simp only
    split <;> first
      | exact Or.inl rfl
      | exact processAggregateItem_cap cap1 cap2 lim cur parents input hc

theorem processItems_of_reachesDepth {cap1 cap2 lim : Nat} (hc : cap1 < cap2) {f : Nat}
    {stack : List redisReadTask} {input : List Nat}
    (h : reachesDepth cap2 lim cap1 f stack input = true) (hs : stack.length ≤ cap1) :
    ∃ msg f2, ∀ used,
      processItems cap1 lim f2 stack input used = .failed REDIS_ERR_PROTOCOL msg := by
  induction f generalizing stack input with
  | zero => simp [reachesDepth] at h
  | succ f ih =>
    unfold reachesDepth at h
    rw [if_neg (by omega)] at h
    rcases processItem_cap cap1 cap2 lim stack input (le_of_lt hc) with heq | ⟨msg, hfail⟩
    · rw [heq] at h
      cases hp : processItem cap1 lim stack input with
      | needMore => simp [hp] at h
      | fail c m => simp [hp] at h
      | ok p n =>
        rw [hp] at h
        cases p with
        | finished v => simp at h
        | next s1 =>
          simp only at h
          have hs1 : s1.length ≤ cap1 := by
            rcases (processItem_next hp).2 with hl | hl
            · omega
            · exact hl
          obtain ⟨msg, f2, hf2⟩ := ih h hs1
          refine ⟨msg, f2 + 1, fun used => ?_⟩
          unfold processItems
          rw [hp]
          exact hf2 _
    · refine ⟨msg, 1, fun used => ?_⟩
      unfold processItems
      rw [hfail]

theorem reachesDepth_self (cap lim : Nat) (f : Nat) (stack : List redisReadTask)
    (input : List Nat) (hs : stack.length ≤ cap) :
    reachesDepth cap lim cap f stack input = false := by
  induction f generalizing stack input with
  | zero => rfl
  | succ f ih =>
    unfold reachesDepth
    rw [if_neg (by omega)]
    cases hp : processItem cap lim stack input with
    | needMore => rfl
    | fail c m => rfl
    | ok p n =>
      cases p with
      | finished v => rfl
      | next s1 =>
        simp only
        apply ih
        rcases (processItem_next hp).2 with hl | hl
        · omega
        · exact hl

/-- C3: the parse-task stack has 9 frames.  Whenever the nested containers of
an input need more (run with any larger stack, the item loop comes to hold
more than 9 frames), `redisReaderGetReply` on an idle reader fed that input
returns `REDIS_ERR` with no reply and `err = REDIS_ERR_PROTOCOL`; the item loop
of the reader itself never holds more than 9 frames, and a call of
`redisReaderGetReply` on a reader with `ridx` at most 8 leaves `ridx` at
most 8. -/
theorem nesting_beyond_stack_is_protocol_error (lim m cap fuel : Nat) (input : List Nat)
    (hcap : REDIS_READER_STACK_SIZE < cap)
    (hdeep : reachesDepth cap lim REDIS_READER_STACK_SIZE fuel [rootTask] input = true) :
    (redisReaderGetReply lim
      (redisReaderFeed (idleReader m) input).2).1 = REDIS_ERR ∧
    (redisReaderGetReply lim
      (redisReaderFeed (idleReader m) input).2).2.1 = none ∧
    (redisReaderGetReply lim
      (redisReaderFeed (idleReader m) input).2).2.2.err
        = REDIS_ERR_PROTOCOL ∧
    (∀ (f : Nat) (stack : List redisReadTask) (bs : List Nat),
      stack.length ≤ REDIS_READER_STACK_SIZE →
      reachesDepth REDIS_READER_STACK_SIZE lim REDIS_READER_STACK_SIZE f stack bs = false) ∧
    ∀ r : redisReader, r.ridx ≤ 8 → (redisReaderGetReply lim r).2.2.ridx ≤ 8 := by
  obtain ⟨msg, f2, hf2⟩ := processItems_of_reachesDepth hcap hdeep (by decide)
  have hrun : processItems REDIS_READER_STACK_SIZE lim (input.length + 1) [rootTask] input 0
      = .failed REDIS_ERR_PROTOCOL msg :=
    processItems_functional rfl (processItems_enough _ _ _ _ _ _ (by omega)) (hf2 0) (by simp)
  have hget : redisReaderGetReply lim
      (redisReaderFeed (idleReader m) input).2
      = (REDIS_ERR, none,
          { (redisReaderFeed (idleReader m) input).2 with
            err := REDIS_ERR_PROTOCOL, errstr := msg }) := by
    unfold redisReaderGetReply
    rw [getReplyWith_eq _ _ _ rfl]
    have hun : (redisReaderFeed (idleReader m) input).2.unread = input := by
      simp [redisReader.unread, redisReaderFeed, idleReader]
    have hcs : currentStack (redisReaderFeed (idleReader m) input).2
        = [rootTask] := rfl
    rw [hun, hcs, hrun]
  refine ⟨by rw [hget], by rw [hget], by rw [hget],
    fun f stack bs hs => reachesDepth_self _ lim f stack bs hs, ?_⟩
  have hlen : ∀ r : redisReader, r.rstack.length ≤ REDIS_READER_STACK_SIZE →
      (redisReaderGetReply lim r).2.2.rstack.length ≤ REDIS_READER_STACK_SIZE := ?_
  · intro r hr
    have h9 : REDIS_READER_STACK_SIZE = 9 := rfl
    have := hlen r (by unfold redisReader.ridx at hr; omega)
    unfold redisReader.ridx
    omega
  intro r hr
  unfold redisReaderGetReply getReplyWith
  split_ifs with he
  · exact hr
  · simp only
    cases hp : processItems REDIS_READER_STACK_SIZE lim (r.unread.length + 1)
        (currentStack r) r.unread 0 with
    | complete v u => simp [compact_rstack]
    | failed c ms => exact hr
    | outOfFuel => exact hr
    | incomplete s u =>
      simp only [compact_rstack]
      exact (processItems_incomplete hp).2.2.2.2
        (currentStack_length_le r _ (by decide) hr)

/-- Witness for C3: ten nested one-element arrays. -/
theorem nesting_beyond_stack_is_protocol_error_witness :
    reachesDepth 16 64 REDIS_READER_STACK_SIZE 32 [rootTask]
      (bytes "*1\r\n*1\r\n*1\r\n*1\r\n*1\r\n*1\r\n*1\r\n*1\r\n*1\r\n*1\r\n:7\r\n") = true ∧
    (redisReaderGetReply 64 (redisReaderFeed (idleReader 1024)
      (bytes "*1\r\n*1\r\n*1\r\n*1\r\n*1\r\n*1\r\n*1\r\n*1\r\n*1\r\n*1\r\n:7\r\n")).2).1
      = REDIS_ERR ∧
    (redisReaderGetReply 64 (redisReaderFeed (idleReader 1024)
      (bytes "*1\r\n*1\r\n*1\r\n*1\r\n*1\r\n*1\r\n*1\r\n*1\r\n*1\r\n*1\r\n:7\r\n")).2).2.2.err
      = REDIS_ERR_PROTOCOL :=
  ⟨by decide,
   (nesting_beyond_stack_is_protocol_error 64 1024 16 32 _ (by decide) (by decide)).1,
   (nesting_beyond_stack_is_protocol_error 64 1024 16 32 _ (by decide) (by decide)).2.2.1⟩

/-! ## The async correlation engine -/

theorem REDIS_EV_ADD_WRITE_fst (ac : redisAsyncContext) : (REDIS_EV_ADD_WRITE ac).1 = ac := by
  unfold REDIS_EV_ADD_WRITE
  simp only [refreshTimeout_fst]
  cases ac.ev.addWrite <;> simp [refreshTimeout_fst]

theorem decrPending_lt (n : Nat) : decrPending n < 4294967296 := by
  unfold decrPending
  norm_num
  omega

theorem expectedReplies_eq (n : Nat) : expectedReplies n = decrPending n + 1 := by
  unfold expectedReplies decrPending
  norm_num
  split_ifs <;> omega

theorem expectedReplies_decrPending (n : Nat) (h : decrPending n ≠ 0) :
    expectedReplies (decrPending n) = decrPending n := by
  have hlt := decrPending_lt n
  unfold expectedReplies
  split_ifs <;> omega

theorem expectedReplies_mod (n : Nat) : expectedReplies (n % 2 ^ 32) = expectedReplies n := by
  unfold expectedReplies
  norm_num

theorem replySlots_append (a b : List redisCallBack) :
    replySlots (a ++ b) = replySlots a ++ replySlots b := by
  simp [replySlots]

theorem replySlots_cons (cb : redisCallBack) (q : List redisCallBack) :
    replySlots (cb :: q)
      = List.replicate (expectedReplies cb.pending_subs) cb.ident ++ replySlots q := by
  simp [replySlots]

theorem replySlots_nil : replySlots [] = [] := rfl

theorem submit_accepted (ac : redisAsyncContext) (fn : Option Nat) (cmd : List Nat)
    (privdata : Option Nat) (subs : Nat) (h : acceptsCommands ac = true) :
    (redisAsyncFormattedCommand ac fn cmd privdata subs).1 = REDIS_OK ∧
    (redisAsyncFormattedCommand ac fn cmd privdata subs).2.1.replies = ac.replies ++
      [{ func := fn, pending_subs := subs % 2 ^ 32, command := cmd, privdata := privdata }] ∧
    (redisAsyncFormattedCommand ac fn cmd privdata subs).2.1.c.flags = ac.c.flags ∧
    (redisAsyncFormattedCommand ac fn cmd privdata subs).2.1.sub = ac.sub := by
  unfold acceptsCommands at h
  unfold redisAsyncFormattedCommand
  rw [if_neg (by simpa using h)]
  simp only [REDIS_EV_ADD_WRITE_fst]
  exact ⟨trivial, trivial, trivial, trivial⟩

theorem submit_refused (ac : redisAsyncContext) (fn : Option Nat) (cmd : List Nat)
    (privdata : Option Nat) (subs : Nat) (h : acceptsCommands ac = false) :
    (redisAsyncFormattedCommand ac fn cmd privdata subs).1 ≠ REDIS_OK ∧
    (redisAsyncFormattedCommand ac fn cmd privdata subs).2.1 = ac := by
  unfold acceptsCommands at h
  unfold redisAsyncFormattedCommand
  rw [if_pos (by simpa using h)]
  exact ⟨by simp [REDIS_ERR, REDIS_OK], rfl⟩

theorem lookupSubscription_congr {ac1 ac2 : redisAsyncContext} (h : ac1.sub = ac2.sub)
    (r : redisReply) : lookupSubscription ac1 r = lookupSubscription ac2 r := by
  unfold lookupSubscription
  rw [h]

theorem deliverReply_routed {ac : redisAsyncContext} {r : redisReply} {cb : redisCallBack}
    (h : lookupSubscription ac r = some cb) :
    deliverReply ac r = (ac, [{ routed := true, target := cb.ident, reply := r }]) := by
  unfold deliverReply
  rw [h]

theorem deliverReply_empty {ac : redisAsyncContext} {r : redisReply}
    (h : lookupSubscription ac r = none) (hq : ac.replies = []) :
    deliverReply ac r = (ac, []) := by
  unfold deliverReply
  rw [h]
  simp only [hq]

theorem deliverReply_head {ac : redisAsyncContext} {r : redisReply} {cb : redisCallBack}
    {rest : List redisCallBack}
    (h : lookupSubscription ac r = none) (hq : ac.replies = cb :: rest) :
    (deliverReply ac r).2 = [queueCall cb.ident r] ∧
    replySlots ac.replies = cb.ident :: replySlots (deliverReply ac r).1.replies ∧
    (deliverReply ac r).1.c.flags = ac.c.flags ∧
    (deliverReply ac r).1.sub = ac.sub := by
  unfold deliverReply
  rw [h]
  simp only [hq]
  rw [replySlots_cons, expectedReplies_eq, List.replicate_succ, List.cons_append]
  by_cases hn : decrPending cb.pending_subs = 0
  · rw [if_pos hn, hn]
    exact ⟨rfl, by simp, rfl, rfl⟩
  · rw [if_neg hn]
    refine ⟨rfl, ?_, rfl, rfl⟩
    simp only
    rw [replySlots_cons]
    simp only [redisCallBack.ident]
    rw [expectedReplies_decrPending _ hn]

theorem queueCalls_append (a b : List Invocation) :
    queueCalls (a ++ b) = queueCalls a ++ queueCalls b := by
  simp [queueCalls]

theorem asyncRun_correlation (ac0 : redisAsyncContext) (events : List AsyncEvent) :
    ∀ ac : redisAsyncContext, ac.c.flags = ac0.c.flags → ac.sub = ac0.sub →
      (asyncRun ac events).2.2
        = (if acceptsCommands ac0 = true then submittedEntries events else []) ∧
      queueCalls (asyncRun ac events).2.1
        = List.zipWith queueCall (replySlots (ac.replies ++ (asyncRun ac events).2.2))
            (answeringReplies (acceptsCommands ac0)
              (fun r => (lookupSubscription ac0 r).isSome)
              (replySlots ac.replies).length events) ∧
      replySlots (asyncRun ac events).1.replies
        = (replySlots (ac.replies ++ (asyncRun ac events).2.2)).drop
            (queueCalls (asyncRun ac events).2.1).length ∧
      (asyncRun ac events).2.1.filter (fun i => i.routed) = routedCalls ac0 events := by
  induction events with
  | nil =>
    intro ac _ _
    simp [asyncRun, queueCalls, answeringReplies, submittedEntries, routedCalls]
  | cons ev evs ih =>
    intro ac hfl hsub
    have hacc : acceptsCommands ac = acceptsCommands ac0 := by
      unfold acceptsCommands
      rw [hfl]
    cases ev with
    | submit fn cmd privdata subs =>
      unfold asyncRun
      simp only
      cases hb : acceptsCommands ac0 with
      | true =>
        obtain ⟨hok, hrep, hfl1, hsub1⟩ :=
          submit_accepted ac fn cmd privdata subs (hacc.trans hb)
        obtain ⟨h1, h2, h3, h4⟩ :=
          ih (redisAsyncFormattedCommand ac fn cmd privdata subs).2.1
            (hfl1.trans hfl) (hsub1.trans hsub)
        rw [if_pos hok]
        simp only
        rw [hb] at h1 h2
        rw [hrep] at h2 h3
        have hslots : ∀ tl : List redisCallBack,
            replySlots (ac.replies ++
              [{ func := fn, pending_subs := subs % 2 ^ 32, command := cmd,
                 privdata := privdata }] ++ tl)
            = replySlots (ac.replies ++
              ({ func := fn, pending_subs := subs, command := cmd,
                 privdata := privdata } :: tl)) := by
          intro tl
          simp only [replySlots_append, replySlots_cons, replySlots_nil, expectedReplies_mod,
            redisCallBack.ident, List.append_nil, List.append_assoc]
        have hlen : (replySlots (ac.replies ++
              [{ func := fn, pending_subs := subs % 2 ^ 32, command := cmd,
                 privdata := privdata }])).length
            = (replySlots ac.replies).length + expectedReplies subs := by
          simp only [replySlots_append, replySlots_cons, replySlots_nil, expectedReplies_mod,
            List.append_nil, List.length_append, List.length_replicate]
        rw [hslots, hlen] at h2
        rw [hslots] at h3
        refine ⟨?_, ?_, h3, ?_⟩
        · rw [h1]
          simp [submittedEntries]
        · rw [h2]
          simp [answeringReplies]
        · rw [h4]
          simp [routedCalls]
      | false =>
        obtain ⟨hno, hsame⟩ := submit_refused ac fn cmd privdata subs (hacc.trans hb)
        rw [if_neg hno, hsame]
        obtain ⟨h1, h2, h3, h4⟩ := ih ac hfl hsub
        rw [hb] at h1 h2
        refine ⟨?_, ?_, h3, ?_⟩
        · rw [h1]
          simp
        · rw [h2]
          simp [answeringReplies]
        · rw [h4]
          simp [routedCalls]
    | reply rep =>
      unfold asyncRun
      simp only [queueCalls_append, List.filter_append]
      have hlk : lookupSubscription ac rep = lookupSubscription ac0 rep :=
        lookupSubscription_congr hsub rep
      cases hl : lookupSubscription ac0 rep with
      | some cb =>
        rw [hl] at hlk
        rw [deliverReply_routed hlk]
        obtain ⟨h1, h2, h3, h4⟩ := ih ac hfl hsub
        refine ⟨?_, ?_, ?_, ?_⟩
        · rw [h1]
          cases acceptsCommands ac0 <;> simp [submittedEntries]
        · simp only [queueCalls, List.filter_cons, List.filter_nil, Bool.not_true,
            List.nil_append] at h2 ⊢
          rw [h2]
          simp [answeringReplies, hl]
        · simp only [queueCalls, List.filter_cons, List.filter_nil, Bool.not_true,
            List.nil_append] at h3 ⊢
          exact h3
        · rw [h4]
          simp [routedCalls, hl]
      | none =>
        rw [hl] at hlk
        cases hq : ac.replies with
        | nil =>
          rw [deliverReply_empty hlk hq]
          obtain ⟨h1, h2, h3, h4⟩ := ih ac hfl hsub
          rw [hq] at h2 h3
          refine ⟨?_, ?_, ?_, ?_⟩
          · rw [h1]
            cases acceptsCommands ac0 <;> simp [submittedEntries]
          · simp only [queueCalls, List.filter_nil, List.nil_append] at h2 ⊢
            rw [h2]
            simp [answeringReplies, hl, replySlots_nil]
          · simp only [queueCalls, List.filter_nil, List.nil_append] at h3 ⊢
            exact h3
          · rw [h4]
            simp [routedCalls, hl]
        | cons cb rest =>
          obtain ⟨hcalls, hslots, hfl1, hsub1⟩ := deliverReply_head hlk hq
          obtain ⟨h1, h2, h3, h4⟩ :=
            ih (deliverReply ac rep).1 (hfl1.trans hfl) (hsub1.trans hsub)
          rw [hq] at hslots
          have hall : ∀ tl : List redisCallBack,
              replySlots (cb :: rest ++ tl)
                = cb.ident :: replySlots ((deliverReply ac rep).1.replies ++ tl) := by
            intro tl
            rw [replySlots_append, replySlots_append, hslots, List.cons_append]
          rw [hcalls]
          refine ⟨?_, ?_, ?_, ?_⟩
          · rw [h1]
            cases acceptsCommands ac0 <;> simp [submittedEntries]
          · rw [hall, hslots, h2]
            simp [queueCalls, queueCall, answeringReplies, hl]
          · rw [hall, h3]
            simp [queueCalls, queueCall]
          · rw [h4]
            simp [queueCall, routedCalls, hl]

/-- C7: FIFO reply correlation.  For every async context and every sequence of
submissions and arriving replies: the accepted submissions are all of them
when the context is neither disconnecting nor freeing and none otherwise; the
calls made for replies that are not routed subscription pushes pair, in order,
the callbacks owed a reply (the entries already queued followed by the accepted
submissions, in submission order, each as often as its `pending_subs` counter
expects) with the replies that arrive while a callback is still owed one, the
first such reply going to the first callback owed, the second to the second,
and so on; the `replies` list left at the end is owed exactly what has not been
served, so entries join at the tail and leave from the head; and the routed
pushes go to their subscription entries without touching the list. -/
theorem fifo_reply_correlation (ac : redisAsyncContext) (events : List AsyncEvent) :
    (asyncRun ac events).2.2
      = (if acceptsCommands ac = true then submittedEntries events else []) ∧
    queueCalls (asyncRun ac events).2.1
      = List.zipWith queueCall (replySlots (ac.replies ++ (asyncRun ac events).2.2))
          (answeringReplies (acceptsCommands ac) (fun r => (lookupSubscription ac r).isSome)
            (replySlots ac.replies).length events) ∧
    replySlots (asyncRun ac events).1.replies
      = (replySlots (ac.replies ++ (asyncRun ac events).2.2)).drop
          (queueCalls (asyncRun ac events).2.1).length ∧
    (asyncRun ac events).2.1.filter (fun i => i.routed) = routedCalls ac events :=
  asyncRun_correlation ac events ac rfl rfl

/-- Witness for C7 on the sample session: the unsolicited first reply and the
surplus last reply reach no callback, the second command receives its two
replies in a row, and the list is empty at the end. -/
theorem fifo_reply_correlation_witness :
    queueCalls (asyncRun ctxFiveSeconds sampleSession).2.1
      = [queueCall (some 11, bytes "PING\r\n", none) (createInteger 1),
         queueCall (some 12, bytes "SUBSCRIBE a b\r\n", some 7) (createInteger 2),
         queueCall (some 12, bytes "SUBSCRIBE a b\r\n", some 7) (createInteger 3),
         queueCall (some 13, bytes "GET k\r\n", none) (createInteger 4)] ∧
    replySlots (asyncRun ctxFiveSeconds sampleSession).1.replies = [] :=
  ⟨(fifo_reply_correlation ctxFiveSeconds sampleSession).2.1.trans rfl,
   (fifo_reply_correlation ctxFiveSeconds sampleSession).2.2.1.trans rfl⟩

end Redis
